import Mathlib

/-!
# Verification of the iv-sniper quantitative core

A shallow embedding, over `ℚ`, of the decision-relevant functions of the
iv-sniper repository:

* `src/analyst/volume_profile.py` — volume profile, value area, HVN walls;
* `src/analyst/strike_selector.py` — credit-spread strike selection and
  spread economics;
* `src/core/iv_calculator.py` — the Newton-Raphson implied-volatility loop
  (the transcendental Black-Scholes price/vega maps are abstracted as
  function parameters);
* `src/scanner/scanner.py` / `src/scanner/iv_scorer.py` — result
  aggregation of the batch scan, and the IV-percentile score;
* `src/watchdog/monitor.py` / `src/position_watchdog/exits.py` — the
  per-trade exit evaluation of the watchdog polling cycle.

Python `float` arithmetic is modelled exactly by `ℚ`; Python's `round`
(banker's rounding) is modelled by `roundHalfEven`.
-/

/-! ## Python primitives -/

/-- Round-half-to-even of a rational to an integer, the semantics of
Python's builtin `round` on exact values. -/
def roundHalfEven (q : ℚ) : ℤ :=
  if q - ⌊q⌋ < 1/2 then ⌊q⌋
  else if 1/2 < q - ⌊q⌋ then ⌊q⌋ + 1
  else if 2 ∣ ⌊q⌋ then ⌊q⌋ else ⌊q⌋ + 1

/-- Python `round(x, d)` with `scale = 10^d`: round half to even at the
given decimal scale. -/
def pyRoundScaled (scale : ℚ) (x : ℚ) : ℚ :=
  (roundHalfEven (x * scale) : ℚ) / scale

/-- Python `round(x, 2)`. -/
def pyRound2 (x : ℚ) : ℚ := pyRoundScaled 100 x

/-- Python `round(x, 6)`. -/
def pyRound6 (x : ℚ) : ℚ := pyRoundScaled 1000000 x

/-- Python `min(xs, key=key)` for a nonempty list `x :: xs`: the first
element attaining the minimal key. -/
def pyMinByKey {α : Type} (key : α → ℚ) (x : α) (xs : List α) : α :=
  xs.foldl (fun acc y => if key y < key acc then y else acc) x

/-- Python `max(xs, key=key)` for a nonempty list `x :: xs`: the first
element attaining the maximal key. -/
def pyMaxByKey {α : Type} (key : α → ℚ) (x : α) (xs : List α) : α :=
  xs.foldl (fun acc y => if key acc < key y then y else acc) x

/-- Lookup in a Python-dict association list, with a default
(`d.get(k, dflt)`). -/
def dictGetD (bins : List (ℚ × ℚ)) (k : ℚ) (dflt : ℚ) : ℚ :=
  match bins.find? (fun pv => pv.1 = k) with
  | some pv => pv.2
  | none => dflt

/-- `bins[k] += v` on a `defaultdict(float)`: add to the existing entry,
or append a fresh entry at the end (Python dicts preserve insertion
order). -/
def dictAdd (bins : List (ℚ × ℚ)) (k : ℚ) (v : ℚ) : List (ℚ × ℚ) :=
  match bins with
  | [] => [(k, v)]
  | pv :: rest =>
    if pv.1 = k then (pv.1, pv.2 + v) :: rest
    else pv :: dictAdd rest k v

/-! ### Lemmas about the primitives -/

theorem roundHalfEven_intCast (z : ℤ) : roundHalfEven (z : ℚ) = z := by
  simp [roundHalfEven]

theorem roundHalfEven_le_of_le {x y : ℚ} (h : x ≤ y) :
    roundHalfEven x ≤ roundHalfEven y := by
  unfold roundHalfEven
  rcases lt_or_eq_of_le (Int.floor_le_floor h : ⌊x⌋ ≤ ⌊y⌋) with hlt | heq
  · -- distinct floors: round x ≤ ⌊x⌋ + 1 ≤ ⌊y⌋ ≤ round y
    split_ifs <;> omega
  · -- same floor: compare fractional parts
    rw [heq]
    have hxy : x - (⌊y⌋ : ℚ) ≤ y - ⌊y⌋ := by linarith
    split_ifs <;> first | omega | linarith

theorem pyRound2_mono {x y : ℚ} (h : x ≤ y) : pyRound2 x ≤ pyRound2 y := by
  unfold pyRound2 pyRoundScaled
  have : x * 100 ≤ y * 100 := by linarith
  have hr := roundHalfEven_le_of_le this
  have : (roundHalfEven (x * 100) : ℚ) ≤ (roundHalfEven (y * 100) : ℚ) := by
    exact_mod_cast hr
  linarith

theorem pyRound2_eq_self {x : ℚ} (hx : ∃ z : ℤ, x * 100 = (z : ℚ)) :
    pyRound2 x = x := by
  obtain ⟨z, hz⟩ := hx
  unfold pyRound2 pyRoundScaled
  rw [hz, roundHalfEven_intCast, ← hz]
  field_simp

/-! ## Spread economics — `compute_spread_pnl`
(`src/analyst/strike_selector.py`, lines 369-429) -/

/-- Config constant `SPREAD_SL_PCT` (`src/config.py`). -/
def SPREAD_SL_PCT : ℚ := 100

/-- Config constant `SPREAD_TARGET_PCT` (`src/config.py`). -/
def SPREAD_TARGET_PCT : ℚ := 50

/-- The dict returned by `compute_spread_pnl`.  `riskReward` is `none`
when the Python function yields `float('inf')` (i.e. `max_loss ≤ 0`). -/
structure SpreadPnl where
  netCredit : ℚ
  maxProfit : ℚ
  maxLoss : ℚ
  riskReward : Option ℚ
  slPremium : ℚ
  targetPremium : ℚ
  slPct : ℚ
  targetPct : ℚ
  deriving Repr, DecidableEq

/-- `compute_spread_pnl` from `src/analyst/strike_selector.py`:
`net_credit = max(0, short_premium - long_premium)`,
`max_profit = net_credit * lot_size`,
`max_loss = (spread_width - net_credit) * lot_size`, each rounded to two
decimals in the returned dict. -/
def computeSpreadPnl (shortPremium longPremium : ℚ) (lotSize : ℚ)
    (spreadWidth : ℚ) (slPct : ℚ := SPREAD_SL_PCT)
    (targetPct : ℚ := SPREAD_TARGET_PCT) : SpreadPnl :=
  let netCredit := max 0 (shortPremium - longPremium)
  let maxProfit := netCredit * lotSize
  let maxLoss := (spreadWidth - netCredit) * lotSize
  let riskReward :=
    if 0 < maxLoss then some (pyRoundScaled 1000 (maxProfit / maxLoss))
    else none
  let slPremium := shortPremium * (1 + slPct / 100)
  let targetPremium := shortPremium * (1 - targetPct / 100)
  { netCredit := pyRound2 netCredit
    maxProfit := pyRound2 maxProfit
    maxLoss := pyRound2 maxLoss
    riskReward := riskReward
    slPremium := pyRound2 slPremium
    targetPremium := pyRound2 (max 0 targetPremium)
    slPct := slPct
    targetPct := targetPct }

/-! ## IV Percentile — `_calculate_ivp`
(`src/scanner/iv_scorer.py`, lines 94-118) -/

/-- Config constant `IVP_MIN_DAYS` (`src/config.py`). -/
def IVP_MIN_DAYS : ℕ := 30

/-- `_calculate_ivp`: percentage of historical readings strictly below
`currentIv`, rounded to two decimals; `0` for an empty history. -/
def calcIvp (ivHistory : List ℚ) (currentIv : ℚ) : ℚ :=
  let countLower := (ivHistory.filter (fun iv => iv < currentIv)).length
  let total := ivHistory.length
  if total = 0 then 0
  else pyRound2 ((countLower : ℚ) / (total : ℚ) * 100)

theorem filter_length_mono_of_imp {p q : ℚ → Bool} (l : List ℚ)
    (h : ∀ x, p x = true → q x = true) :
    (l.filter p).length ≤ (l.filter q).length := by
  induction l with
  | nil => simp
  | cons a l ih =>
    by_cases hp : p a = true
    · rw [List.filter_cons_of_pos hp, List.filter_cons_of_pos (h a hp)]
      simpa using ih
    · rw [List.filter_cons_of_neg (by simpa using hp), List.filter_cons]
      split_ifs
      · simp only [List.length_cons]
        omega
      · exact ih

/-- C9: for a fixed IV history, the IV percentile is monotone in the
current IV reading. -/
theorem ivp_monotone (hist : List ℚ) (a b : ℚ) (hab : a ≤ b) :
    calcIvp hist a ≤ calcIvp hist b := by
  unfold calcIvp
  by_cases h0 : hist.length = 0
  · simp [h0]
  · simp only [h0, if_false]
    apply pyRound2_mono
    have hcount : (hist.filter (fun iv => iv < a)).length ≤
        (hist.filter (fun iv => iv < b)).length := by
      apply filter_length_mono_of_imp
      intro x hx
      simp only [decide_eq_true_eq] at hx ⊢
      linarith
    have hlen : (0:ℚ) < (hist.length : ℚ) := by
      exact_mod_cast Nat.pos_of_ne_zero h0
    have h1 : ((hist.filter (fun iv => iv < a)).length : ℚ) ≤
        ((hist.filter (fun iv => iv < b)).length : ℚ) := by exact_mod_cast hcount
    gcongr

/-- C9 witness: a concrete instantiation of `ivp_monotone`. -/
theorem ivp_monotone_witness :
    calcIvp [10, 20, 30] 20 ≤ calcIvp [10, 20, 30] 25 :=
  ivp_monotone [10, 20, 30] 20 25 (by norm_num)

/-! ## C5: credit-spread conservation law -/

/-- C5 counterexample: the conservation law
`max_profit/lot_size + max_loss/lot_size == spread_width` fails for the
dict values returned by `compute_spread_pnl` (which are rounded to two
decimals) at `short_premium = long_premium = 1`, `lot_size = 1`,
`spread_width = 0.013`. -/
theorem spread_conservation_counterexample :
    ¬ ((computeSpreadPnl 1 1 1 (13/1000)).maxProfit / 1 +
       (computeSpreadPnl 1 1 1 (13/1000)).maxLoss / 1 = 13/1000) := by
  norm_num [computeSpreadPnl, pyRound2, pyRoundScaled, roundHalfEven,
    SPREAD_SL_PCT, SPREAD_TARGET_PCT]

/-- C5 (amended): whenever the pre-rounding products
`net_credit × lot_size` and `(spread_width − net_credit) × lot_size` are
exact multiples of `0.01` (so that the two-decimal rounding of the
returned dict is lossless) and `lot_size > 0`, the returned values
satisfy `max_profit/lot_size + max_loss/lot_size = spread_width`. -/
theorem spread_conservation (shortPremium longPremium lotSize spreadWidth
    slPct targetPct : ℚ) (hlot : 0 < lotSize)
    (hprofit : ∃ m : ℤ,
      max 0 (shortPremium - longPremium) * lotSize * 100 = (m : ℚ))
    (hloss : ∃ m : ℤ,
      (spreadWidth - max 0 (shortPremium - longPremium)) * lotSize * 100 = (m : ℚ)) :
    (computeSpreadPnl shortPremium longPremium lotSize spreadWidth slPct
        targetPct).maxProfit / lotSize +
      (computeSpreadPnl shortPremium longPremium lotSize spreadWidth slPct
        targetPct).maxLoss / lotSize = spreadWidth := by
  unfold computeSpreadPnl
  simp only
  rw [pyRound2_eq_self hprofit, pyRound2_eq_self hloss]
  field_simp

/-- C5 witness: the conservation law at
`short_premium = 45, long_premium = 22, lot_size = 50, spread_width = 50`. -/
theorem spread_conservation_witness :
    (computeSpreadPnl 45 22 50 50 SPREAD_SL_PCT SPREAD_TARGET_PCT).maxProfit / 50 +
      (computeSpreadPnl 45 22 50 50 SPREAD_SL_PCT SPREAD_TARGET_PCT).maxLoss / 50 = 50 :=
  spread_conservation 45 22 50 50 SPREAD_SL_PCT SPREAD_TARGET_PCT
    (by norm_num) ⟨115000, by norm_num⟩ ⟨135000, by norm_num⟩

/-! ## Dates

Python `datetime.date` values are modelled as a record carrying the
proleptic-Gregorian day number (`serial`, giving the order and day
differences) together with the calendar fields the source inspects.
Real dates instantiate all fields consistently. -/

structure PyDate where
  serial : ℤ
  year : ℤ
  month : ℤ
  weekday : ℤ
  deriving DecidableEq, Repr

/-- `d1 <= d2` on Python dates (chronological). -/
def PyDate.le (d1 d2 : PyDate) : Prop := d1.serial ≤ d2.serial

instance : LE PyDate := ⟨PyDate.le⟩

instance : DecidableRel (fun d1 d2 : PyDate => d1 ≤ d2) := fun d1 d2 =>
  inferInstanceAs (Decidable (d1.serial ≤ d2.serial))

/-! ## Watchdog exit evaluation
(`src/watchdog/monitor.py` `run_watchdog`, lines 107-146, and
`src/position_watchdog/exits.py` `ExitManager.close_trade`) -/

/-- Config constant `EXPIRY_SQUARE_OFF_TIME` = "14:30", in minutes after
midnight (`src/config.py`). -/
def EXPIRY_SQUARE_OFF_MINUTES : ℚ := 14 * 60 + 30

/-- The `trade_log` fields `run_watchdog` reads when evaluating an open
trade with fresh quotes. -/
structure Trade where
  tradeId : String
  tradeSymbol : String
  expiry : PyDate
  netCredit : ℚ
  lotSize : ℚ
  deriving Repr

/-- `ExitReason` values written by `ExitManager.close_trade`. -/
inductive ExitReason where
  | TARGET
  | SL
  | EXPIRY
  | MANUAL
  deriving DecidableEq, Repr

/-- What the watchdog does with one OPEN trade in one polling cycle. -/
inductive WatchAction where
  | skipped
  | closed (reason : ExitReason) (pnl : ℚ)
  | stillOpen (pnl : ℚ)
  deriving DecidableEq, Repr

/-- Realized P&L written by `ExitManager.close_trade`:
`(entry_credit - exit_debit) * lot_size` with
`exit_debit = current_short_pr - current_long_pr`. -/
def closeTradePnl (t : Trade) (sLtp lLtp : ℚ) : ℚ :=
  (t.netCredit - (sLtp - lLtp)) * t.lotSize

/-- The per-trade body of `run_watchdog`: skip on a missing leg quote,
else check EXPIRY (trade expiry is today and time-of-day at/past the
cutoff), then TARGET (`debit ≤ credit*(1 - target_pct/100)`), then
STOP-LOSS (`debit ≥ credit*(1 + sl_pct/100)`), first match wins;
otherwise the trade stays OPEN (the watchdog only logs its P&L). -/
def watchdogEval (today : PyDate) (nowTime : ℚ)
    (cutoff : ℚ := EXPIRY_SQUARE_OFF_MINUTES)
    (targetPct : ℚ := SPREAD_TARGET_PCT) (slPct : ℚ := SPREAD_SL_PCT)
    (t : Trade) (sLtp lLtp : Option ℚ) : WatchAction :=
  match sLtp, lLtp with
  | some s, some l =>
    let debit := s - l
    if t.expiry = today ∧ cutoff ≤ nowTime then
      .closed .EXPIRY (closeTradePnl t s l)
    else if debit ≤ t.netCredit * (1 - targetPct / 100) then
      .closed .TARGET (closeTradePnl t s l)
    else if t.netCredit * (1 + slPct / 100) ≤ debit then
      .closed .SL (closeTradePnl t s l)
    else
      .stillOpen ((t.netCredit - debit) * t.lotSize)
  | _, _ => .skipped

/-- C1: with fresh quotes for both legs, exit conditions are checked in
the fixed priority order EXPIRY, TARGET, STOP-LOSS (first match wins),
with realized P&L `(entry_credit - current_debit) * lot_size` on close,
and the trade stays OPEN when no condition fires; in particular, with
`entry_credit = 20`, `target_pct = 50`, `sl_pct = 100` on a non-expiry
cycle: debit 9 closes as TARGET with pnl `(20-9)*lot`, debit 45 closes
as SL with pnl `(20-45)*lot`, and debit 15 stays OPEN. -/
theorem watchdog_exit_priority :
    (∀ (today : PyDate) (nowTime cutoff targetPct slPct : ℚ) (t : Trade)
        (s l : ℚ),
      ((t.expiry = today ∧ cutoff ≤ nowTime) →
        watchdogEval today nowTime cutoff targetPct slPct t (some s) (some l) =
          .closed .EXPIRY ((t.netCredit - (s - l)) * t.lotSize)) ∧
      (¬(t.expiry = today ∧ cutoff ≤ nowTime) →
        s - l ≤ t.netCredit * (1 - targetPct / 100) →
        watchdogEval today nowTime cutoff targetPct slPct t (some s) (some l) =
          .closed .TARGET ((t.netCredit - (s - l)) * t.lotSize)) ∧
      (¬(t.expiry = today ∧ cutoff ≤ nowTime) →
        ¬(s - l ≤ t.netCredit * (1 - targetPct / 100)) →
        t.netCredit * (1 + slPct / 100) ≤ s - l →
        watchdogEval today nowTime cutoff targetPct slPct t (some s) (some l) =
          .closed .SL ((t.netCredit - (s - l)) * t.lotSize)) ∧
      (¬(t.expiry = today ∧ cutoff ≤ nowTime) →
        ¬(s - l ≤ t.netCredit * (1 - targetPct / 100)) →
        ¬(t.netCredit * (1 + slPct / 100) ≤ s - l) →
        watchdogEval today nowTime cutoff targetPct slPct t (some s) (some l) =
          .stillOpen ((t.netCredit - (s - l)) * t.lotSize))) ∧
    (∀ (today : PyDate) (nowTime : ℚ) (t : Trade) (lot : ℚ),
      ¬(t.expiry = today ∧ EXPIRY_SQUARE_OFF_MINUTES ≤ nowTime) →
      t.netCredit = 20 → t.lotSize = lot →
      watchdogEval today nowTime EXPIRY_SQUARE_OFF_MINUTES SPREAD_TARGET_PCT
          SPREAD_SL_PCT t (some 9) (some 0) =
        .closed .TARGET ((20 - 9) * lot) ∧
      watchdogEval today nowTime EXPIRY_SQUARE_OFF_MINUTES SPREAD_TARGET_PCT
          SPREAD_SL_PCT t (some 45) (some 0) =
        .closed .SL ((20 - 45) * lot) ∧
      watchdogEval today nowTime EXPIRY_SQUARE_OFF_MINUTES SPREAD_TARGET_PCT
          SPREAD_SL_PCT t (some 15) (some 0) =
        .stillOpen ((20 - 15) * lot)) := by
  constructor
  · intro today nowTime cutoff targetPct slPct t s l
    refine ⟨fun h1 => ?_, fun h1 h2 => ?_, fun h1 h2 h3 => ?_, fun h1 h2 h3 => ?_⟩
    · simp [watchdogEval, h1, closeTradePnl]
    · simp [watchdogEval, h1, h2, closeTradePnl]
    · simp [watchdogEval, h1, h2, h3, closeTradePnl]
    · simp [watchdogEval, h1, h2, h3]
  · intro today nowTime t lot h1 hcredit hlot
    refine ⟨?_, ?_, ?_⟩ <;>
    · simp only [watchdogEval, closeTradePnl, hcredit, hlot]
      rw [if_neg h1]
      norm_num [SPREAD_TARGET_PCT, SPREAD_SL_PCT]

/-- C1 witness: `watchdog_exit_priority` applied at concrete inputs —
an expiry-day close at the cutoff, and the `entry_credit = 20` scenario
with `lot = 50` on a non-expiry day. -/
theorem watchdog_exit_priority_witness :
    (watchdogEval ⟨739526, 2025, 9, 3⟩ 880 EXPIRY_SQUARE_OFF_MINUTES
        SPREAD_TARGET_PCT SPREAD_SL_PCT
        ⟨"T1", "INFY", ⟨739526, 2025, 9, 3⟩, 20, 50⟩ (some 12) (some 2) =
      .closed .EXPIRY ((20 - (12 - 2)) * 50)) ∧
    (watchdogEval ⟨739526, 2025, 9, 3⟩ 880 EXPIRY_SQUARE_OFF_MINUTES
        SPREAD_TARGET_PCT SPREAD_SL_PCT
        ⟨"T2", "INFY", ⟨739553, 2025, 9, 2⟩, 20, 50⟩ (some 9) (some 0) =
      .closed .TARGET ((20 - 9) * 50)) := by
  constructor
  · exact (watchdog_exit_priority.1 ⟨739526, 2025, 9, 3⟩ 880
      EXPIRY_SQUARE_OFF_MINUTES SPREAD_TARGET_PCT SPREAD_SL_PCT
      ⟨"T1", "INFY", ⟨739526, 2025, 9, 3⟩, 20, 50⟩ 12 2).1
      ⟨rfl, by norm_num [EXPIRY_SQUARE_OFF_MINUTES]⟩
  · exact ((watchdog_exit_priority.2 ⟨739526, 2025, 9, 3⟩ 880
      ⟨"T2", "INFY", ⟨739553, 2025, 9, 2⟩, 20, 50⟩ 50
      (by intro h; exact absurd h.1 (by simp)) rfl rfl).1)

/-! ## Implied volatility — Newton-Raphson loop
(`src/core/iv_calculator.py` `implied_volatility`, lines 78-146)

The Black-Scholes price and vega are transcendental maps
(`black_scholes_price`, `_vega`); the Newton-Raphson control flow is
embedded parametrically in those two maps. -/

/-- Outcome of one body of the `implied_volatility` loop. -/
inductive NrStep where
  | done (sigma : ℚ)
  | abort
  | next (sigma : ℚ)
  deriving DecidableEq, Repr

/-- The body of the Newton-Raphson loop: vega guard, convergence test,
update `sigma -= diff / vega`, then the `sigma ≤ 0` reset to `0.001` and
the `sigma > 5` abort. -/
def nrStep (priceFn vegaFn : ℚ → ℚ) (optionPrice precision sigma : ℚ) :
    NrStep :=
  let bsPrice := priceFn sigma
  let v := vegaFn sigma
  if v < 1 / 1000000000000 then .abort
  else if |bsPrice - optionPrice| < precision then .done sigma
  else
    let sigmaNext := sigma - (bsPrice - optionPrice) / v
    if sigmaNext ≤ 0 then .next (1 / 1000)
    else if 5 < sigmaNext then .abort
    else .next sigmaNext

/-- The bounded iteration of `implied_volatility`: `none` on fuel
exhaustion (`max_iterations` passes without convergence); on convergence
the returned value is `round(sigma, 6)`. -/
def nrLoop (priceFn vegaFn : ℚ → ℚ) (optionPrice precision : ℚ) :
    ℕ → ℚ → Option ℚ
  | 0, _ => none
  | fuel + 1, sigma =>
    match nrStep priceFn vegaFn optionPrice precision sigma with
    | .done s => some (pyRound6 s)
    | .abort => none
    | .next s => nrLoop priceFn vegaFn optionPrice precision fuel s

/-- `implied_volatility`: guard `time_to_expiry_years ≤ 0` or
`option_price ≤ 0`, then Newton-Raphson from `initial_guess = 0.25` for
at most `max_iterations = 100` iterations at `precision = 1e-6`. -/
def impliedVolatility (priceFn vegaFn : ℚ → ℚ)
    (optionPrice timeToExpiryYears : ℚ) (precision : ℚ := 1 / 1000000)
    (maxIterations : ℕ := 100) (initialGuess : ℚ := 1 / 4) : Option ℚ :=
  if timeToExpiryYears ≤ 0 ∨ optionPrice ≤ 0 then none
  else nrLoop priceFn vegaFn optionPrice precision maxIterations initialGuess

theorem nrLoop_some (priceFn vegaFn : ℚ → ℚ) (optionPrice precision : ℚ) :
    ∀ (fuel : ℕ) (sigma r : ℚ),
      nrLoop priceFn vegaFn optionPrice precision fuel sigma = some r →
      ∃ s : ℚ, |priceFn s - optionPrice| < precision ∧ r = pyRound6 s := by
  intro fuel
  induction fuel with
  | zero => intro sigma r h; simp [nrLoop] at h
  | succ n ih =>
    intro sigma r h
    rw [nrLoop] at h
    rcases hs : nrStep priceFn vegaFn optionPrice precision sigma with s | _ | s <;>
      rw [hs] at h
    · -- converged
      simp only [nrStep] at hs
      split_ifs at hs with h1 h2
      · simp only [NrStep.done.injEq] at hs
        subst hs
        exact ⟨sigma, h2, by simpa using h.symm⟩
    · simp at h
    · exact ih s r h

/-- C6 (amended): the solver returns `none` when `time_to_expiry_years ≤ 0`;
iterates from the initial guess `0.25` for at most `max_iterations = 100`
iterations (fuel exhaustion yields `none`); aborts to `none` when vega
falls below `1e-12`; resets a non-positive updated sigma to `0.001` and
continues; aborts to `none` when the updated sigma exceeds `5.0`; and
whenever it returns a value, that value is `round(s, 6)` for a sigma `s`
at which the price differs from the target by less than the precision
(the tolerance is guaranteed at the pre-rounding sigma). -/
theorem iv_solver_contract (priceFn vegaFn : ℚ → ℚ)
    (optionPrice T precision : ℚ) (maxIter : ℕ) (guess sigma : ℚ) :
    (T ≤ 0 →
      impliedVolatility priceFn vegaFn optionPrice T precision maxIter guess
        = none) ∧
    (¬(T ≤ 0 ∨ optionPrice ≤ 0) →
      impliedVolatility priceFn vegaFn optionPrice T =
        nrLoop priceFn vegaFn optionPrice (1 / 1000000) 100 (1 / 4)) ∧
    (nrLoop priceFn vegaFn optionPrice precision 0 sigma = none) ∧
    (vegaFn sigma < 1 / 1000000000000 →
      nrStep priceFn vegaFn optionPrice precision sigma = .abort) ∧
    (¬(vegaFn sigma < 1 / 1000000000000) →
      ¬(|priceFn sigma - optionPrice| < precision) →
      sigma - (priceFn sigma - optionPrice) / vegaFn sigma ≤ 0 →
      nrStep priceFn vegaFn optionPrice precision sigma = .next (1 / 1000)) ∧
    (¬(vegaFn sigma < 1 / 1000000000000) →
      ¬(|priceFn sigma - optionPrice| < precision) →
      ¬(sigma - (priceFn sigma - optionPrice) / vegaFn sigma ≤ 0) →
      5 < sigma - (priceFn sigma - optionPrice) / vegaFn sigma →
      nrStep priceFn vegaFn optionPrice precision sigma = .abort) ∧
    (∀ r : ℚ,
      impliedVolatility priceFn vegaFn optionPrice T precision maxIter guess
        = some r →
      ∃ s : ℚ, |priceFn s - optionPrice| < precision ∧ r = pyRound6 s) := by
  refine ⟨fun hT => ?_, fun hg => ?_, rfl, fun h1 => ?_, fun h1 h2 h3 => ?_,
    fun h1 h2 h3 h4 => ?_, fun r hr => ?_⟩
  · simp [impliedVolatility, hT]
  · simp [impliedVolatility, hg]
  · simp only [nrStep]
    rw [if_pos h1]
  · simp only [nrStep]
    rw [if_neg h1, if_neg h2, if_pos h3]
  · simp only [nrStep]
    rw [if_neg h1, if_neg h2, if_neg h3, if_pos h4]
  · unfold impliedVolatility at hr
    split_ifs at hr
    exact nrLoop_some priceFn vegaFn optionPrice precision maxIter guess r hr

/-- C6 counterexample: the claim that the (Black-Scholes) price at the
*returned* value is within `1e-6` of the target fails, because the
returned value is the converged sigma rounded to six decimals: with
price map `s ↦ 100·s`, vega map `100` and target `12.34567`, the solver
converges at `s = 0.1234567` but returns `0.123457`, where the price
misses the target by `3e-5`. -/
theorem iv_convergence_counterexample :
    impliedVolatility (fun s : ℚ => 100 * s) (fun _ => 100)
        (1234567/100000) 1 = some (123457/1000000) ∧
    ¬(|100 * (123457/1000000 : ℚ) - 1234567/100000| < 1/1000000) := by
  have e1 : nrStep (fun s : ℚ => 100 * s) (fun _ => 100) (1234567/100000)
      (1/1000000) (1/4) = .next (1234567/10000000) := by
    unfold nrStep
    rw [if_neg (by norm_num), if_neg ?_, if_neg (by norm_num),
      if_neg (by norm_num)]
    · norm_num
    · rw [abs_of_pos (by norm_num)]
      norm_num
  have e2 : nrStep (fun s : ℚ => 100 * s) (fun _ => 100) (1234567/100000)
      (1/1000000) (1234567/10000000) = .done (1234567/10000000) := by
    unfold nrStep
    rw [if_neg (by norm_num), if_pos ?_]
    norm_num
  constructor
  · rw [impliedVolatility, if_neg (by norm_num)]
    rw [show (100:ℕ) = 99+1 from rfl]
    rw [nrLoop, e1]
    show nrLoop (fun s : ℚ => 100 * s) (fun _ => 100) (1234567/100000)
        (1/1000000) 99 (1234567/10000000) = _
    rw [show (99:ℕ) = 98+1 from rfl]
    rw [nrLoop, e2]
    show some (pyRound6 (1234567/10000000)) = _
    rw [pyRound6, pyRoundScaled, roundHalfEven]
    norm_num
  · rw [abs_of_pos (by norm_num)]
    norm_num

/-- C6 witness: `iv_solver_contract` applied at `T = 0` (non-positive
time to expiry gives `none`). -/
theorem iv_solver_contract_witness :
    impliedVolatility (fun s : ℚ => 100 * s) (fun _ => 100) 10 0 = none :=
  (iv_solver_contract (fun s : ℚ => 100 * s) (fun _ => 100) 10 0
    (1 / 1000000) 100 (1 / 4) (1 / 4)).1 (by norm_num)

/-! ## Batch-scan result aggregation
(`src/scanner/scanner.py` `run_scan`, lines 194-235)

The `as_completed` loop collects each worker's outcome in completion
order; the loop body is deterministic in the (symbol, outcome) stream,
which is modelled as an explicit list. -/

/-- The per-stock record assembled by `_process_stock` (and the null
record `run_scan` builds for a stock that could not be processed). -/
structure StockResult where
  stockSymbol : String
  score : Option ℚ
  method : Option String
  trend : Option String
  ema50 : Option ℚ
  spot : Option ℚ
  atmIv : Option ℚ
  hv20 : Option ℚ
  qualified : Bool
  deriving DecidableEq, Repr

/-- The all-`None` record `run_scan` appends to `all_results` for a
stock whose worker failed or returned `None`. -/
def nullScanRecord (s : String) : StockResult :=
  { stockSymbol := s, score := none, method := none, trend := none,
    ema50 := none, spot := none, atmIv := none, hv20 := none,
    qualified := false }

/-- What `future.result()` delivers for one symbol: a result dict
(possibly `None`), or a raised exception. -/
inductive WorkerOutcome where
  | res (r : Option StockResult)
  | exn
  deriving DecidableEq, Repr

/-- One iteration of the `as_completed` loop of `run_scan`: a real
result goes to `all_results` (and to `scored` when qualified); a `None`
result or an exception appends a null record to `all_results` only. -/
def scanStep (acc : List StockResult × List StockResult)
    (so : String × WorkerOutcome) : List StockResult × List StockResult :=
  match so.2 with
  | .res (some r) =>
    (if r.qualified then acc.1 ++ [r] else acc.1, acc.2 ++ [r])
  | .res none => (acc.1, acc.2 ++ [nullScanRecord so.1])
  | .exn => (acc.1, acc.2 ++ [nullScanRecord so.1])

/-- The aggregation performed by `run_scan` over all worker outcomes:
returns `(scored, all_results)`. -/
def scanAggregate (outcomes : List (String × WorkerOutcome)) :
    List StockResult × List StockResult :=
  outcomes.foldl scanStep ([], [])

theorem scanStep_audit_length (acc : List StockResult × List StockResult)
    (so : String × WorkerOutcome) :
    (scanStep acc so).2.length = acc.2.length + 1 := by
  rcases so with ⟨s, o⟩
  rcases o with r | _
  · rcases r with _ | r <;> simp [scanStep]
  · simp [scanStep]

theorem scanStep_audit_mono (acc : List StockResult × List StockResult)
    (so : String × WorkerOutcome) (a : StockResult) (h : a ∈ acc.2) :
    a ∈ (scanStep acc so).2 := by
  rcases so with ⟨s, o⟩
  rcases o with r | _
  · rcases r with _ | r <;> simp [scanStep, h]
  · simp [scanStep, h]

theorem foldl_scanStep_audit_length (l : List (String × WorkerOutcome)) :
    ∀ acc : List StockResult × List StockResult,
      (l.foldl scanStep acc).2.length = acc.2.length + l.length := by
  induction l with
  | nil => intro acc; simp
  | cons x l ih =>
    intro acc
    rw [List.foldl_cons, ih (scanStep acc x), scanStep_audit_length]
    simp
    omega

theorem foldl_scanStep_audit_mono (l : List (String × WorkerOutcome)) :
    ∀ (acc : List StockResult × List StockResult) (a : StockResult),
      a ∈ acc.2 → a ∈ (l.foldl scanStep acc).2 := by
  induction l with
  | nil => intro acc a h; simpa using h
  | cons x l ih =>
    intro acc a h
    rw [List.foldl_cons]
    exact ih (scanStep acc x) a (scanStep_audit_mono acc x a h)

theorem foldl_scanStep_null_mem (l : List (String × WorkerOutcome)) :
    ∀ (acc : List StockResult × List StockResult) (s : String),
      ((s, WorkerOutcome.exn) ∈ l ∨ (s, WorkerOutcome.res none) ∈ l) →
      nullScanRecord s ∈ (l.foldl scanStep acc).2 := by
  induction l with
  | nil => intro acc s h; simp at h
  | cons x l ih =>
    intro acc s h
    rw [List.foldl_cons]
    by_cases hx : x = (s, WorkerOutcome.exn) ∨ x = (s, WorkerOutcome.res none)
    · apply foldl_scanStep_audit_mono
      rcases hx with hx | hx <;> subst hx <;> simp [scanStep]
    · push_neg at hx
      rcases h with h | h <;> rcases List.mem_cons.mp h with he | hl
      · exact absurd he.symm hx.1
      · exact ih (scanStep acc x) s (Or.inl hl)
      · exact absurd he.symm hx.2
      · exact ih (scanStep acc x) s (Or.inr hl)

theorem foldl_scanStep_scored_mem (l : List (String × WorkerOutcome)) :
    ∀ (acc : List StockResult × List StockResult) (r : StockResult),
      r ∈ (l.foldl scanStep acc).1 →
      r ∈ acc.1 ∨ (r.qualified = true ∧
        ∃ s : String, (s, WorkerOutcome.res (some r)) ∈ l) := by
  induction l with
  | nil => intro acc r h; exact Or.inl (by simpa using h)
  | cons x l ih =>
    intro acc r h
    rw [List.foldl_cons] at h
    rcases ih (scanStep acc x) r h with hmem | ⟨hq, s, hs⟩
    · rcases x with ⟨s, o⟩
      rcases o with ro | _
      · rcases ro with _ | rr
        · exact Or.inl (by simpa [scanStep] using hmem)
        · by_cases hq : rr.qualified
          · simp only [scanStep, if_pos hq, List.mem_append,
              List.mem_singleton] at hmem
            rcases hmem with hmem | hmem
            · exact Or.inl hmem
            · subst hmem
              exact Or.inr ⟨hq, s, List.mem_cons_self _ _⟩
          · exact Or.inl (by simpa [scanStep, if_neg hq] using hmem)
      · exact Or.inl (by simpa [scanStep] using hmem)
    · exact Or.inr ⟨hq, s, List.mem_cons_of_mem x hs⟩

/-- C7 counterexample: a symbol whose worker raises is *not* excluded
from the audit (scan-history) results — `run_scan` appends a null,
unqualified record for it to `all_results` (which is what gets saved to
scan history). -/
theorem scan_failed_symbol_in_audit_counterexample :
    (scanAggregate [("FAILSYM", WorkerOutcome.exn)]).2 =
      [nullScanRecord "FAILSYM"] ∧
    (scanAggregate [("FAILSYM", WorkerOutcome.exn)]).1 = [] := by
  constructor <;> rfl

/-- C7 (amended): every worker failure (exception or `None` result) is
caught: the scan never aborts — each submitted symbol contributes
exactly one audit record and the whole outcome stream is consumed; a
failed symbol is excluded from the qualified results (every qualified
entry stems from a successful worker result marked qualified); and the
failed symbol is *retained* in the audit results as a null, unqualified
record (rather than excluded from them). -/
theorem scan_failure_isolation (outcomes : List (String × WorkerOutcome)) :
    ((scanAggregate outcomes).2.length = outcomes.length) ∧
    (∀ r ∈ (scanAggregate outcomes).1,
      r.qualified = true ∧
        ∃ s : String, (s, WorkerOutcome.res (some r)) ∈ outcomes) ∧
    (∀ s : String,
      (s, WorkerOutcome.exn) ∈ outcomes ∨
        (s, WorkerOutcome.res none) ∈ outcomes →
      nullScanRecord s ∈ (scanAggregate outcomes).2) := by
  refine ⟨?_, ?_, ?_⟩
  · rw [scanAggregate, foldl_scanStep_audit_length]
    simp
  · intro r hr
    rcases foldl_scanStep_scored_mem outcomes ([], []) r hr with h | h
    · simp at h
    · exact h
  · intro s hs
    exact foldl_scanStep_null_mem outcomes ([], []) s hs

/-- C7 witness: `scan_failure_isolation` on a stream with one successful
qualified result and one exception — the audit keeps both records, the
failed symbol appears as a null record, and the only qualified entry is
the successful one. -/
theorem scan_failure_isolation_witness :
    nullScanRecord "BAD" ∈
      (scanAggregate [("GOOD", WorkerOutcome.res (some
        { stockSymbol := "GOOD", score := some 80, method := some "IVP",
          trend := some "Bullish", ema50 := some 100, spot := some 110,
          atmIv := some (1/4), hv20 := some (1/5),
          qualified := true })), ("BAD", WorkerOutcome.exn)]).2 :=
  (scan_failure_isolation _).2.2 "BAD" (Or.inl (by simp))

/-! ## Volume profile
(`src/analyst/volume_profile.py`)

`calculate_volume_profile` is embedded with the caller-supplied
`bin_size` (the Freedman-Diaconis default of the Python signature is a
separate, untranslated numeric path). -/

/-- Config constant `VP_VALUE_AREA_PCT` (`src/config.py`). -/
def VP_VALUE_AREA_PCT : ℚ := 70

/-- Config constant `VP_HVN_MULTIPLIER` (`src/config.py`). -/
def VP_HVN_MULTIPLIER : ℚ := 3 / 2

/-- Config constant `VP_MIN_ADV` (`src/config.py`). -/
def VP_MIN_ADV : ℚ := 500000

/-- A daily candle. -/
structure Candle where
  openPrice : ℚ
  high : ℚ
  low : ℚ
  close : ℚ
  volume : ℚ
  deriving DecidableEq, Repr

/-- Number of iterations of the Python loop
`price = low_bin; while price <= high_bin + bin_size * 0.01: price += bin_size`
for a positive step: the bins visited are `low_bin + k * bin_size` for
`k < candleSteps`. -/
def candleSteps (bs lowBin highBin : ℚ) : ℕ :=
  (⌊(highBin - lowBin) / bs + 1 / 100⌋).toNat + 1

/-- Distribute one candle's volume uniformly over the price bins its
`[low, high]` range touches (skipping non-positive volume or an empty
range), exactly as the per-candle body of `calculate_volume_profile`. -/
def addCandle (bs : ℚ) (bins : List (ℚ × ℚ)) (c : Candle) : List (ℚ × ℚ) :=
  if c.volume ≤ 0 ∨ c.high ≤ c.low then bins
  else
    let lowBin := ⌊c.low / bs⌋ * bs
    let highBin := ⌊c.high / bs⌋ * bs
    let numBins := max 1 (roundHalfEven ((highBin - lowBin) / bs) + 1)
    let volPerBin := c.volume / (numBins : ℚ)
    (List.range (candleSteps bs lowBin highBin)).foldl
      (fun b (k : ℕ) =>
        dictAdd b (pyRound2 (lowBin + (k : ℚ) * bs)) volPerBin) bins

/-- `max(bins, key=bins.get)`: the first key (in dict insertion order)
carrying the maximal volume. -/
def pyMaxByValue (bins : List (ℚ × ℚ)) : ℚ :=
  match bins with
  | [] => 0
  | pv :: rest => (pyMaxByKey Prod.snd pv rest).1

/-- The index `min(range(len(sorted_prices)), key=lambda i: abs(sorted_prices[i] - poc))`. -/
def pocIdxOf (sp : List ℚ) (poc : ℚ) : ℕ :=
  match List.range sp.length with
  | [] => 0
  | i :: is => pyMinByKey (fun j => |sp.getD j 0 - poc|) i is

/-- `vol_up` in `_compute_value_area`: the volume of the next bin above
the current window, `0` when `upper_idx` is out of range. -/
def volUpAt (sp : List ℚ) (get : ℚ → ℚ) (n up : ℕ) : ℚ :=
  if up < n then get (sp.getD up 0) else 0

/-- `vol_down` in `_compute_value_area`: the volume of the next bin below
the current window, `0` when `lower_idx` is negative (`loN = 0`). -/
def volDnAt (sp : List ℚ) (get : ℚ → ℚ) (loN : ℕ) : ℚ :=
  if 1 ≤ loN then get (sp.getD (loN - 1) 0) else 0

/-- The `while accumulated < target_volume` loop of `_compute_value_area`,
with explicit fuel (the Python loop consumes at least one bin index per
iteration, so `sp.length + 1` fuel always suffices).  `up` is
`upper_idx` and `loN` is `lower_idx + 1` (so `loN = 0` means the lower
side is exhausted). -/
def vaLoop (sp : List ℚ) (get : ℚ → ℚ) (target : ℚ) (n : ℕ) :
    ℕ → ℕ → ℕ → ℚ → ℚ → ℚ → ℚ × ℚ
  | 0, _, _, _, vaH, vaL => (vaH, vaL)
  | fuel + 1, up, loN, acc, vaH, vaL =>
    if acc < target then
      if volUpAt sp get n up = 0 ∧ volDnAt sp get loN = 0 then (vaH, vaL)
      else if volDnAt sp get loN ≤ volUpAt sp get n up then
        vaLoop sp get target n fuel (up + 1) loN (acc + volUpAt sp get n up)
          (sp.getD up 0) vaL
      else
        vaLoop sp get target n fuel up (loN - 1) (acc + volDnAt sp get loN)
          vaH (sp.getD (loN - 1) 0)
    else (vaH, vaL)

/-- `_compute_value_area` (`src/analyst/volume_profile.py`, lines
168-213): expand outward from the POC, preferring the side with more
volume (a tie favours the upper side), until the target fraction of
total volume is accumulated or both sides are exhausted; returns
`(va_high, va_low)`. -/
def computeValueArea (bins : List (ℚ × ℚ)) (poc binSize totalVolume : ℚ) :
    ℚ × ℚ :=
  let target := totalVolume * (VP_VALUE_AREA_PCT / 100)
  let acc0 := dictGetD bins poc 0
  let sp := List.insertionSort (fun a b : ℚ => a ≤ b) (bins.map Prod.fst)
  let pocIdx := pocIdxOf sp poc
  vaLoop sp (fun p => dictGetD bins p 0) target sp.length (sp.length + 1)
    (pocIdx + 1) pocIdx acc0 poc poc

/-- The dict returned by `calculate_volume_profile`; `bins` is
`dict(sorted(bins.items()))`, i.e. ascending by price. -/
structure VolumeProfile where
  bins : List (ℚ × ℚ)
  poc : ℚ
  vaHigh : ℚ
  vaLow : ℚ
  totalVolume : ℚ
  binSize : ℚ
  adv : ℚ
  deriving DecidableEq, Repr

/-- `calculate_volume_profile` (`src/analyst/volume_profile.py`, lines
68-165) with a caller-supplied `bin_size`: `none` for fewer than 10
candles, no positive-volume candle, average (positive-candle) daily
volume below `VP_MIN_ADV`, or an empty bin map. -/
def calcVolumeProfile (candles : List Candle) (binSize : ℚ) :
    Option VolumeProfile :=
  if candles.length < 10 then none
  else
    let volumes := (candles.filter (fun c => 0 < c.volume)).map Candle.volume
    if volumes = [] then none
    else
      let adv := volumes.sum / (volumes.length : ℚ)
      if adv < VP_MIN_ADV then none
      else
        let bins := candles.foldl (addCandle binSize) []
        if bins = [] then none
        else
          let totalVolume := (bins.map Prod.snd).sum
          let poc := pyMaxByValue bins
          let va := computeValueArea bins poc binSize totalVolume
          some { bins := List.insertionSort
                   (fun a b : ℚ × ℚ => a.1 ≤ b.1) bins
                 poc := poc
                 vaHigh := va.1
                 vaLow := va.2
                 totalVolume := totalVolume
                 binSize := binSize
                 adv := pyRoundScaled 1 adv }

/-- The dict returned by `find_hvn_walls`. -/
structure HvnWalls where
  supportWall : Option ℚ
  resistanceWall : Option ℚ
  allHvns : List ℚ
  deriving DecidableEq, Repr

/-- `find_hvn_walls` (`src/analyst/volume_profile.py`, lines 220-271):
HVNs are bins with volume at least `VP_HVN_MULTIPLIER` times the mean
bin volume; the support wall is the nearest HVN below spot, the
resistance wall the nearest HVN above. -/
def findHvnWalls (profile : VolumeProfile) (spotPrice : ℚ) : HvnWalls :=
  let bins := profile.bins
  if bins = [] then { supportWall := none, resistanceWall := none,
                      allHvns := [] }
  else
    let meanVol := (bins.map Prod.snd).sum / (bins.length : ℚ)
    let hvnThreshold := meanVol * VP_HVN_MULTIPLIER
    let allHvns := List.insertionSort (fun a b : ℚ => a ≤ b)
      ((bins.filter (fun pv => hvnThreshold ≤ pv.2)).map Prod.fst)
    let supportCandidates := allHvns.filter (fun p => p < spotPrice)
    let resistCandidates := allHvns.filter (fun p => spotPrice < p)
    { supportWall := supportCandidates.getLast?
      resistanceWall := resistCandidates.head?
      allHvns := allHvns }

/-- C8 (amended): `calculate_volume_profile` returns `none` when the
candle list has fewer than 10 candles (regardless of their volumes),
when no candle has positive volume, or when the average daily volume
over the positive-volume candles is below `VP_MIN_ADV`. -/
theorem vp_insufficient_data (candles : List Candle) (binSize : ℚ) :
    (candles.length < 10 → calcVolumeProfile candles binSize = none) ∧
    ((∀ c ∈ candles, c.volume ≤ 0) →
      calcVolumeProfile candles binSize = none) ∧
    (((candles.filter (fun c => 0 < c.volume)).map Candle.volume ≠ [] ∧
      ((candles.filter (fun c => 0 < c.volume)).map Candle.volume).sum /
        (((candles.filter (fun c => 0 < c.volume)).map
          Candle.volume).length : ℚ) < VP_MIN_ADV) →
      calcVolumeProfile candles binSize = none) := by
  refine ⟨fun hlen => ?_, fun hdead => ?_, fun hadv => ?_⟩
  · rw [calcVolumeProfile, if_pos hlen]
  · by_cases hlen : candles.length < 10
    · rw [calcVolumeProfile, if_pos hlen]
    · have hvol : (candles.filter (fun c => 0 < c.volume)).map Candle.volume
          = [] := by
        rw [List.map_eq_nil, List.filter_eq_nil]
        intro c hc
        simpa using hdead c hc
      rw [calcVolumeProfile, if_neg hlen]
      simp only [hvol]
      rfl
  · by_cases hlen : candles.length < 10
    · rw [calcVolumeProfile, if_pos hlen]
    · rw [calcVolumeProfile, if_neg hlen]
      simp only [if_neg hadv.1, if_pos hadv.2]

/-- A heavy trading day spanning `[100, 110]` at volume 1,000,000. -/
def candleA : Candle :=
  { openPrice := 105, high := 110, low := 100, close := 105,
    volume := 1000000 }

/-- A dead day with no range and no volume. -/
def deadCandle : Candle :=
  { openPrice := 105, high := 105, low := 105, close := 105, volume := 0 }

/-- Ten candles of which only one has positive volume. -/
def candlesC8 : List Candle :=
  [candleA, deadCandle, deadCandle, deadCandle, deadCandle, deadCandle,
   deadCandle, deadCandle, deadCandle, deadCandle]

/-- C8 counterexample: a 10-candle list with only one positive-volume
candle (so "fewer than 10 candles have positive volume") for which
`calculate_volume_profile` nevertheless returns a profile — the code
only requires 10 candles in total, one of them with positive volume. -/
theorem vp_positive_count_counterexample :
    (candlesC8.filter (fun c => 0 < c.volume)).length = 1 ∧
    (calcVolumeProfile candlesC8 5).isSome = true := by
  constructor
  · norm_num [candlesC8, candleA, deadCandle]
  · rw [calcVolumeProfile]
    rw [if_neg (by norm_num [candlesC8])]
    have hvol : (candlesC8.filter (fun c => 0 < c.volume)).map Candle.volume
        = [1000000] := by
      norm_num [candlesC8, candleA, deadCandle]
    simp only [hvol]
    rw [if_neg (by simp)]
    rw [if_neg (by norm_num [VP_MIN_ADV])]
    have hdead : ∀ bins : List (ℚ × ℚ), addCandle 5 bins deadCandle = bins := by
      intro bins
      rw [addCandle, if_pos]
      norm_num [deadCandle]
    have hA : addCandle 5 [] candleA =
        [(100, 1000000/3), (105, 1000000/3), (110, 1000000/3)] := by
      rw [addCandle, if_neg (by norm_num [candleA])]
      simp only [candleA]
      rw [show ((⌊(100:ℚ)/5⌋ : ℚ) * 5) = 100 by norm_num,
        show ((⌊(110:ℚ)/5⌋ : ℚ) * 5) = 110 by norm_num,
        show candleSteps 5 100 110 = 3 by
          rw [candleSteps]
          norm_num
          decide,
        show List.range 3 = [0, 1, 2] from rfl]
      simp only [List.foldl_cons, List.foldl_nil]
      norm_num [dictAdd, pyRound2, pyRoundScaled, roundHalfEven,
        Int.fract, roundHalfEven_intCast]
    have hbins : candlesC8.foldl (addCandle 5) [] =
        [(100, 1000000/3), (105, 1000000/3), (110, 1000000/3)] := by
      simp only [candlesC8, List.foldl_cons, List.foldl_nil, hdead, hA]
    simp only [hbins]
    rw [if_neg (by simp)]
    rfl

/-- C8 witness: `vp_insufficient_data` applied to an empty candle
list. -/
theorem vp_insufficient_data_witness : calcVolumeProfile [] 5 = none :=
  (vp_insufficient_data [] 5).1 (by norm_num)

/-! ### Properties of the Python primitives used by the value area -/

theorem foldlMin_mem {α : Type} (key : α → ℚ) :
    ∀ (xs : List α) (x : α),
      xs.foldl (fun acc y => if key y < key acc then y else acc) x ∈ x :: xs := by
  intro xs
  induction xs with
  | nil => intro x; simp
  | cons y ys ih =>
    intro x
    rw [List.foldl_cons]
    by_cases h : key y < key x
    · rw [if_pos h]
      exact List.mem_cons_of_mem x (ih y)
    · rw [if_neg h]
      rcases List.mem_cons.mp (ih x) with h2 | h2
      · rw [h2]; exact List.mem_cons_self _ _
      · exact List.mem_cons_of_mem _ (List.mem_cons_of_mem _ h2)

theorem foldlMin_le {α : Type} (key : α → ℚ) :
    ∀ (xs : List α) (x y : α), y ∈ x :: xs →
      key (xs.foldl (fun acc z => if key z < key acc then z else acc) x) ≤
        key y := by
  intro xs
  induction xs with
  | nil =>
    intro x y hy
    simp only [List.mem_cons, List.not_mem_nil, or_false] at hy
    simp [hy]
  | cons z zs ih =>
    intro x y hy
    rw [List.foldl_cons]
    by_cases h : key z < key x
    · rw [if_pos h]
      rcases List.mem_cons.mp hy with rfl | hy2
      · exact le_of_lt (lt_of_le_of_lt (ih z z (List.mem_cons_self _ _)) h)
      · exact ih z y hy2
    · rw [if_neg h]
      rcases List.mem_cons.mp hy with heq | hy2
      · rw [heq]
        exact ih x x (List.mem_cons_self _ _)
      rcases List.mem_cons.mp hy2 with heq | hy3
      · rw [heq]
        exact le_trans (ih x x (List.mem_cons_self _ _)) (not_lt.mp h)
      · exact ih x y (List.mem_cons_of_mem _ hy3)

theorem pyMinByKey_mem {α : Type} (key : α → ℚ) (x : α) (xs : List α) :
    pyMinByKey key x xs ∈ x :: xs :=
  foldlMin_mem key xs x

theorem pyMinByKey_le {α : Type} (key : α → ℚ) (x : α) (xs : List α) :
    ∀ y ∈ x :: xs, key (pyMinByKey key x xs) ≤ key y :=
  fun y hy => foldlMin_le key xs x y hy

theorem foldlMax_mem {α : Type} (key : α → ℚ) :
    ∀ (xs : List α) (x : α),
      xs.foldl (fun acc y => if key acc < key y then y else acc) x ∈ x :: xs := by
  intro xs
  induction xs with
  | nil => intro x; simp
  | cons y ys ih =>
    intro x
    rw [List.foldl_cons]
    by_cases h : key x < key y
    · rw [if_pos h]
      exact List.mem_cons_of_mem x (ih y)
    · rw [if_neg h]
      rcases List.mem_cons.mp (ih x) with h2 | h2
      · rw [h2]; exact List.mem_cons_self _ _
      · exact List.mem_cons_of_mem _ (List.mem_cons_of_mem _ h2)

theorem pyMaxByKey_mem {α : Type} (key : α → ℚ) (x : α) (xs : List α) :
    pyMaxByKey key x xs ∈ x :: xs :=
  foldlMax_mem key xs x

theorem pyMaxByValue_mem_keys (bins : List (ℚ × ℚ)) (h : bins ≠ []) :
    pyMaxByValue bins ∈ bins.map Prod.fst := by
  rcases bins with _ | ⟨pv, rest⟩
  · exact absurd rfl h
  · rw [pyMaxByValue]
    exact List.mem_map_of_mem Prod.fst (pyMaxByKey_mem Prod.snd pv rest)

theorem dictGetD_of_mem_keys (bins : List (ℚ × ℚ)) (k d : ℚ)
    (h : k ∈ bins.map Prod.fst) :
    ∃ pv ∈ bins, pv.1 = k ∧ dictGetD bins k d = pv.2 := by
  induction bins with
  | nil => simp at h
  | cons pv rest ih =>
    by_cases hk : pv.1 = k
    · refine ⟨pv, List.mem_cons_self _ _, hk, ?_⟩
      rw [dictGetD, List.find?_cons_of_pos _ (by simpa using hk)]
    · have hmem : k ∈ rest.map Prod.fst := by
        rw [List.map_cons] at h
        rcases List.mem_cons.mp h with heq | hm
        · exact absurd heq.symm hk
        · exact hm
      obtain ⟨qv, hqmem, hqk, hval⟩ := ih hmem
      refine ⟨qv, List.mem_cons_of_mem _ hqmem, hqk, ?_⟩
      rw [dictGetD, List.find?_cons_of_neg _ (by simpa using hk)]
      rw [dictGetD] at hval
      exact hval

theorem dictGetD_pos (bins : List (ℚ × ℚ)) (k : ℚ)
    (hvals : ∀ pv ∈ bins, 0 < pv.2) (h : k ∈ bins.map Prod.fst) :
    0 < dictGetD bins k 0 := by
  obtain ⟨pv, hmem, _, hval⟩ := dictGetD_of_mem_keys bins k 0 h
  rw [hval]
  exact hvals pv hmem

theorem filter_keys_map_dictGetD (bins : List (ℚ × ℚ)) (P : ℚ → Bool)
    (hnd : (bins.map Prod.fst).Nodup) :
    ((bins.filter (fun pv => P pv.1)).map Prod.snd) =
      ((bins.map Prod.fst).filter P).map (fun k => dictGetD bins k 0) := by
  induction bins with
  | nil => rfl
  | cons pv rest ih =>
    rw [List.map_cons] at hnd
    have hnotin : pv.1 ∉ rest.map Prod.fst := (List.nodup_cons.mp hnd).1
    have hndr : (rest.map Prod.fst).Nodup := (List.nodup_cons.mp hnd).2
    have hget : ∀ k ∈ rest.map Prod.fst,
        dictGetD (pv :: rest) k 0 = dictGetD rest k 0 := by
      intro k hk
      have hne : ¬(pv.1 = k) := fun heq => hnotin (heq ▸ hk)
      rw [dictGetD, List.find?_cons_of_neg _ (by simpa using hne), dictGetD]
    have hgethead : dictGetD (pv :: rest) pv.1 0 = pv.2 := by
      rw [dictGetD, List.find?_cons_of_pos _ (by simp)]
    have htail : ∀ k ∈ (rest.map Prod.fst).filter P,
        dictGetD (pv :: rest) k 0 = dictGetD rest k 0 :=
      fun k hk => hget k (List.mem_of_mem_filter hk)
    by_cases hp : P pv.1
    · rw [List.map_cons, List.filter_cons_of_pos (by simpa using hp),
        List.filter_cons_of_pos hp, List.map_cons, List.map_cons, hgethead,
        List.map_congr_left htail, ih hndr]
    · rw [List.map_cons, List.filter_cons_of_neg (by simpa using hp),
        List.filter_cons_of_neg hp, List.map_congr_left htail, ih hndr]

/-- Sum of `get` over the index range `[a, b)` of `sp` — the volume the
value-area loop has accumulated when its consumed window is `[a, b)`. -/
def idxSum (sp : List ℚ) (get : ℚ → ℚ) (a b : ℕ) : ℚ :=
  (((sp.drop a).take (b - a)).map get).sum

theorem idxSum_single (sp : List ℚ) (get : ℚ → ℚ) (a : ℕ)
    (h : a < sp.length) :
    idxSum sp get a (a + 1) = get (sp.getD a 0) := by
  rw [idxSum, Nat.add_sub_cancel_left, List.drop_eq_getElem_cons h,
    List.getD_eq_getElem sp 0 h, show (1:ℕ) = 0 + 1 from rfl,
    List.take_cons_succ, List.take_zero, List.map_cons, List.map_nil,
    List.sum_cons, List.sum_nil, add_zero]

theorem idxSum_push_top (sp : List ℚ) (get : ℚ → ℚ) (a b : ℕ)
    (hab : a ≤ b) (hb : b < sp.length) :
    idxSum sp get a (b + 1) = idxSum sp get a b + get (sp.getD b 0) := by
  unfold idxSum
  have hlen : b - a < (sp.drop a).length := by
    rw [List.length_drop]
    omega
  rw [show b + 1 - a = (b - a) + 1 by omega, List.take_succ,
    List.getElem?_eq_getElem hlen, List.getD_eq_getElem sp 0 hb]
  have hd : (sp.drop a).get ⟨b - a, hlen⟩ = sp.get ⟨b, hb⟩ := by
    simp only [List.get_eq_getElem, List.getElem_drop]
    congr 1
    omega
  simp only [List.get_eq_getElem] at hd
  simp [hd]

theorem idxSum_push_bot (sp : List ℚ) (get : ℚ → ℚ) (a b : ℕ)
    (ha : 1 ≤ a) (hab : a ≤ b) (hb : b ≤ sp.length) :
    idxSum sp get (a - 1) b = get (sp.getD (a - 1) 0) + idxSum sp get a b := by
  unfold idxSum
  have ha1 : a - 1 < sp.length := by omega
  rw [List.drop_eq_getElem_cons ha1, show a - 1 + 1 = a by omega,
    show b - (a - 1) = (b - a) + 1 by omega, List.take_cons_succ,
    List.getD_eq_getElem sp 0 ha1]
  simp

theorem idxSum_full (sp : List ℚ) (get : ℚ → ℚ) :
    idxSum sp get 0 sp.length = (sp.map get).sum := by
  simp [idxSum]

theorem filter_interval_of_sorted (sp : List ℚ) (hs : sp.Pairwise (· < ·))
    (a b : ℕ) (hab : a < b) (hb : b ≤ sp.length) (x y : ℚ)
    (hx : x = sp.getD a 0) (hy : y = sp.getD (b - 1) 0) :
    sp.filter (fun p => decide (x ≤ p ∧ p ≤ y)) =
      (sp.drop a).take (b - a) := by
  have ha : a < sp.length := lt_of_lt_of_le hab hb
  have hb1 : b - 1 < sp.length := by omega
  have hgx : x = sp[a] := by rw [hx]; exact List.getD_eq_getElem sp 0 ha
  have hgy : y = sp[b - 1] := by rw [hy]; exact List.getD_eq_getElem sp 0 hb1
  have hpair := List.pairwise_iff_getElem.mp hs
  have hsplit : sp = sp.take a ++ ((sp.drop a).take (b - a) ++ sp.drop b) := by
    conv_lhs => rw [← List.take_append_drop a sp]
    congr 1
    conv_lhs => rw [← List.take_append_drop (b - a) (sp.drop a)]
    congr 1
    rw [List.drop_drop]
    congr 1
    omega
  conv_lhs => rw [hsplit]
  rw [List.filter_append, List.filter_append]
  have h1 : (sp.take a).filter (fun p => decide (x ≤ p ∧ p ≤ y)) = [] := by
    rw [List.filter_eq_nil_iff]
    intro p hp
    obtain ⟨i, hi, hpi⟩ := List.mem_iff_getElem.mp hp
    rw [List.length_take] at hi
    have hia : i < a := by omega
    have hil : i < sp.length := by omega
    have hpi2 : sp[i] = p := by simpa using hpi
    have hlt : sp[i] < sp[a] := hpair i a hil ha hia
    simp only [decide_eq_true_eq, not_and]
    intro hc1
    rw [hgx] at hc1
    exact absurd (le_trans hc1 (le_of_eq hpi2.symm)) (not_le.mpr hlt)
  have h2 : ((sp.drop a).take (b - a)).filter
      (fun p => decide (x ≤ p ∧ p ≤ y)) = (sp.drop a).take (b - a) := by
    rw [List.filter_eq_self]
    intro p hp
    obtain ⟨j, hj, hpj⟩ := List.mem_iff_getElem.mp hp
    rw [List.length_take, List.length_drop] at hj
    have hjb : j < b - a := by omega
    have hjl : a + j < sp.length := by omega
    have hpj2 : sp[a + j] = p := by
      rw [← hpj]
      simp
    have hc1 : x ≤ p := by
      rw [hgx]
      rcases Nat.eq_zero_or_pos j with hj0 | hj0
      · subst hj0
        rw [← hpj2]
        simp
      · exact le_of_lt (hpj2 ▸ hpair a (a + j) ha hjl (by omega))
    have hc2 : p ≤ y := by
      rw [hgy]
      rcases Nat.lt_or_ge (a + j) (b - 1) with hlt | hge
      · exact le_of_lt (hpj2 ▸ hpair (a + j) (b - 1) hjl hb1 hlt)
      · have heq : sp[a + j] = sp[b - 1] := by
          congr 1
          omega
        rw [← hpj2, heq]
    simp only [decide_eq_true_eq]
    exact ⟨hc1, hc2⟩
  have h3 : (sp.drop b).filter (fun p => decide (x ≤ p ∧ p ≤ y)) = [] := by
    rw [List.filter_eq_nil_iff]
    intro p hp
    obtain ⟨j, hj, hpj⟩ := List.mem_iff_getElem.mp hp
    rw [List.length_drop] at hj
    have hjl : b + j < sp.length := by omega
    have hpj2 : sp[b + j] = p := by
      rw [← hpj]
      simp
    have hlt : sp[b - 1] < sp[b + j] := hpair (b - 1) (b + j) hb1 hjl (by omega)
    simp only [decide_eq_true_eq, not_and]
    intro _
    rw [hgy]
    exact not_le.mpr (hpj2 ▸ hlt)
  rw [h1, h2, h3, List.nil_append, List.append_nil]

theorem volUpAt_nonneg (sp : List ℚ) (get : ℚ → ℚ) (up : ℕ)
    (hpos : ∀ p ∈ sp, 0 < get p) : 0 ≤ volUpAt sp get sp.length up := by
  rw [volUpAt]
  split_ifs with h
  · refine le_of_lt (hpos _ ?_)
    rw [List.getD_eq_getElem sp 0 h]
    exact List.getElem_mem h
  · exact le_refl 0

theorem volDnAt_nonneg (sp : List ℚ) (get : ℚ → ℚ) (loN : ℕ)
    (hln : loN - 1 < sp.length) (hpos : ∀ p ∈ sp, 0 < get p) :
    0 ≤ volDnAt sp get loN := by
  rw [volDnAt]
  split_ifs with h
  · refine le_of_lt (hpos _ ?_)
    rw [List.getD_eq_getElem sp 0 hln]
    exact List.getElem_mem hln
  · exact le_refl 0

theorem vaLoop_spec (sp : List ℚ) (get : ℚ → ℚ) (target : ℚ)
    (hpos : ∀ p ∈ sp, 0 < get p) (pocI : ℕ) :
    ∀ (fuel up loN : ℕ),
      loN ≤ pocI → pocI < up → up ≤ sp.length →
      sp.length - up + loN < fuel →
      ∃ up2 loN2 : ℕ,
        vaLoop sp get target sp.length fuel up loN (idxSum sp get loN up)
            (sp.getD (up - 1) 0) (sp.getD loN 0) =
          (sp.getD (up2 - 1) 0, sp.getD loN2 0) ∧
        loN2 ≤ pocI ∧ pocI < up2 ∧ up2 ≤ sp.length ∧
        (target ≤ idxSum sp get loN2 up2 ∨
          (loN2 = 0 ∧ up2 = sp.length)) := by
  intro fuel
  induction fuel with
  | zero => intro up loN _ _ _ h4; omega
  | succ f ih =>
    intro up loN h1 h2 h3 h4
    rw [vaLoop]
    by_cases hacc : idxSum sp get loN up < target
    · rw [if_pos hacc]
      have hlnlt : loN - 1 < sp.length := by omega
      have hupz : 0 ≤ volUpAt sp get sp.length up := volUpAt_nonneg sp get up hpos
      have hdnz : 0 ≤ volDnAt sp get loN := volDnAt_nonneg sp get loN hlnlt hpos
      by_cases hboth : volUpAt sp get sp.length up = 0 ∧ volDnAt sp get loN = 0
      · rw [if_pos hboth]
        have hupn : up = sp.length := by
          by_contra hne
          have hlt : up < sp.length := lt_of_le_of_ne h3 hne
          have : 0 < volUpAt sp get sp.length up := by
            rw [volUpAt, if_pos hlt]
            refine hpos _ ?_
            rw [List.getD_eq_getElem sp 0 hlt]
            exact List.getElem_mem hlt
          exact absurd hboth.1 (ne_of_gt this)
        have hlo0 : loN = 0 := by
          by_contra hne
          have hge : 1 ≤ loN := Nat.one_le_iff_ne_zero.mpr hne
          have : 0 < volDnAt sp get loN := by
            rw [volDnAt, if_pos hge]
            refine hpos _ ?_
            rw [List.getD_eq_getElem sp 0 hlnlt]
            exact List.getElem_mem hlnlt
          exact absurd hboth.2 (ne_of_gt this)
        exact ⟨up, loN, rfl, h1, h2, h3, Or.inr ⟨hlo0, hupn⟩⟩
      · rw [if_neg hboth]
        by_cases hside : volDnAt sp get loN ≤ volUpAt sp get sp.length up
        · rw [if_pos hside]
          have hupidx : up < sp.length := by
            by_contra hne
            have hz : volUpAt sp get sp.length up = 0 := by
              rw [volUpAt, if_neg hne]
            have hdnle : volDnAt sp get loN ≤ 0 := hz ▸ hside
            exact hboth ⟨hz, le_antisymm hdnle hdnz⟩
          have hvol : volUpAt sp get sp.length up = get (sp.getD up 0) := by
            rw [volUpAt, if_pos hupidx]
          have hsum : idxSum sp get loN up + volUpAt sp get sp.length up =
              idxSum sp get loN (up + 1) := by
            rw [hvol, idxSum_push_top sp get loN up (by omega) hupidx]
          have hstep := ih (up + 1) loN h1 (by omega) (by omega) (by omega)
          rw [show up + 1 - 1 = up by omega] at hstep
          rw [← hsum] at hstep
          exact hstep
        · rw [if_neg hside]
          have hdnpos : 0 < volDnAt sp get loN :=
            lt_of_le_of_lt hupz (not_le.mp hside)
          have hlo1 : 1 ≤ loN := by
            by_contra h
            rw [volDnAt, if_neg h] at hdnpos
            exact lt_irrefl 0 hdnpos
          have hvol : volDnAt sp get loN = get (sp.getD (loN - 1) 0) := by
            rw [volDnAt, if_pos hlo1]
          have hsum : idxSum sp get loN up + volDnAt sp get loN =
              idxSum sp get (loN - 1) up := by
            rw [hvol, idxSum_push_bot sp get loN up hlo1 (by omega) h3]
            ring
          have hstep := ih up (loN - 1) (by omega) h2 h3 (by omega)
          rw [← hsum] at hstep
          exact hstep
    · rw [if_neg hacc]
      exact ⟨up, loN, rfl, h1, h2, h3, Or.inl (not_lt.mp hacc)⟩

theorem keys_map_dictGetD (bins : List (ℚ × ℚ))
    (hnd : (bins.map Prod.fst).Nodup) :
    (bins.map Prod.fst).map (fun k => dictGetD bins k 0) =
      bins.map Prod.snd := by
  have h := filter_keys_map_dictGetD bins (fun _ => true) hnd
  simp only [List.filter_true] at h
  exact h.symm

theorem pocIdxOf_spec (sp : List ℚ) (poc : ℚ) (hmem : poc ∈ sp) :
    pocIdxOf sp poc < sp.length ∧ sp.getD (pocIdxOf sp poc) 0 = poc := by
  obtain ⟨j, hj, hji⟩ := List.mem_iff_getElem.mp hmem
  have hlen : 0 < sp.length := by omega
  rcases hrange : List.range sp.length with _ | ⟨i0, irest⟩
  · have := List.range_eq_nil.mp hrange
    omega
  · simp only [pocIdxOf, hrange]
    have hkmem : pyMinByKey (fun i => |sp.getD i 0 - poc|) i0 irest ∈
        i0 :: irest := pyMinByKey_mem _ i0 irest
    have hklt : pyMinByKey (fun i => |sp.getD i 0 - poc|) i0 irest <
        sp.length := by
      rw [← List.mem_range, hrange]
      exact hkmem
    have hjmem : j ∈ i0 :: irest := by
      rw [← hrange]
      exact List.mem_range.mpr hj
    have hle : |sp.getD (pyMinByKey (fun i => |sp.getD i 0 - poc|) i0 irest)
        0 - poc| ≤ |sp.getD j 0 - poc| :=
      pyMinByKey_le (fun i => |sp.getD i 0 - poc|) i0 irest j hjmem
    have hj0 : sp.getD j 0 = poc := by
      rw [List.getD_eq_getElem sp 0 hj]
      exact hji
    rw [hj0, sub_self, abs_zero] at hle
    have habs : |sp.getD (pyMinByKey (fun i => |sp.getD i 0 - poc|) i0 irest)
        0 - poc| = 0 := le_antisymm hle (abs_nonneg _)
    refine ⟨hklt, ?_⟩
    have := abs_eq_zero.mp habs
    linarith

theorem computeValueArea_spec (bins : List (ℚ × ℚ))
    (poc binSize total : ℚ)
    (hnd : (bins.map Prod.fst).Nodup)
    (hvals : ∀ pv ∈ bins, 0 < pv.2)
    (hpoc : poc ∈ bins.map Prod.fst)
    (htot : total = (bins.map Prod.snd).sum) :
    (computeValueArea bins poc binSize total).2 ≤ poc ∧
    poc ≤ (computeValueArea bins poc binSize total).1 ∧
    total * (VP_VALUE_AREA_PCT / 100) ≤
      ((bins.filter (fun pv =>
        (computeValueArea bins poc binSize total).2 ≤ pv.1 ∧
        pv.1 ≤ (computeValueArea bins poc binSize total).1)).map
        Prod.snd).sum := by
  have hperm : List.Perm
      (List.insertionSort (fun a b : ℚ => a ≤ b) (bins.map Prod.fst))
      (bins.map Prod.fst) :=
    List.perm_insertionSort _ _
  set sp := List.insertionSort (fun a b : ℚ => a ≤ b) (bins.map Prod.fst) with hsp
  set get := fun p : ℚ => dictGetD bins p 0 with hget
  set target := total * (VP_VALUE_AREA_PCT / 100) with htarget
  have hsorted : sp.Sorted (fun a b : ℚ => a ≤ b) :=
    List.sorted_insertionSort _ _
  have hndsp : sp.Nodup := hperm.nodup_iff.mpr hnd
  have hstrict : sp.Pairwise (· < ·) :=
    List.Sorted.lt_of_le hsorted hndsp
  have hpos : ∀ p ∈ sp, 0 < get p := by
    intro p hp
    exact dictGetD_pos bins p hvals (hperm.mem_iff.mp hp)
  have hpocsp : poc ∈ sp := hperm.mem_iff.mpr hpoc
  obtain ⟨hpocI_lt, hpocI_val⟩ := pocIdxOf_spec sp poc hpocsp
  set pocI := pocIdxOf sp poc with hpocI
  have hunfold : computeValueArea bins poc binSize total =
      vaLoop sp get target sp.length (sp.length + 1) (pocI + 1) pocI
        (dictGetD bins poc 0) poc poc := rfl
  obtain ⟨u2, l2, heq, hl2, hu2, hu2n, hor⟩ :=
    vaLoop_spec sp get target hpos pocI (sp.length + 1) (pocI + 1) pocI
      le_rfl (by omega) (by omega) (by omega)
  rw [Nat.add_sub_cancel] at heq
  have hacc0 : idxSum sp get pocI (pocI + 1) = dictGetD bins poc 0 := by
    rw [idxSum_single sp get pocI hpocI_lt, hpocI_val]
  rw [hacc0, hpocI_val] at heq
  have hval : computeValueArea bins poc binSize total =
      (sp.getD (u2 - 1) 0, sp.getD l2 0) := hunfold.trans heq
  have hl2lt : l2 < sp.length := by omega
  have hu2lt : u2 - 1 < sp.length := by omega
  have hg2 : sp.getD l2 0 = sp[l2] := List.getD_eq_getElem sp 0 hl2lt
  have hg1 : sp.getD (u2 - 1) 0 = sp[u2 - 1] :=
    List.getD_eq_getElem sp 0 hu2lt
  have hgp : sp[pocI] = poc := by
    rw [← List.getD_eq_getElem sp 0 hpocI_lt]
    exact hpocI_val
  have hpair := List.pairwise_iff_getElem.mp hstrict
  have hlow : sp.getD l2 0 ≤ poc := by
    rw [hg2, ← hgp]
    rcases Nat.lt_or_ge l2 pocI with hlt | hge
    · exact le_of_lt (hpair l2 pocI hl2lt hpocI_lt hlt)
    · exact le_of_eq (by congr 1; omega)
  have hhigh : poc ≤ sp.getD (u2 - 1) 0 := by
    rw [hg1, ← hgp]
    rcases Nat.lt_or_ge pocI (u2 - 1) with hlt | hge
    · exact le_of_lt (hpair pocI (u2 - 1) hpocI_lt hu2lt hlt)
    · exact le_of_eq (by congr 1; omega)
  rw [hval]
  dsimp only
  refine ⟨hlow, hhigh, ?_⟩
  -- the filtered bins sum equals the accumulated index-range sum
  have hfilter : ((bins.filter (fun pv =>
      sp.getD l2 0 ≤ pv.1 ∧ pv.1 ≤ sp.getD (u2 - 1) 0)).map Prod.snd).sum =
      idxSum sp get l2 u2 := by
    rw [filter_keys_map_dictGetD bins
      (fun k => decide (sp.getD l2 0 ≤ k ∧ k ≤ sp.getD (u2 - 1) 0)) hnd]
    have hpermf : List.Perm
        ((bins.map Prod.fst).filter
          (fun k => decide (sp.getD l2 0 ≤ k ∧ k ≤ sp.getD (u2 - 1) 0)))
        (sp.filter
          (fun k => decide (sp.getD l2 0 ≤ k ∧ k ≤ sp.getD (u2 - 1) 0))) :=
      (hperm.symm).filter _
    rw [List.Perm.sum_eq (hpermf.map (fun k => dictGetD bins k 0))]
    rw [filter_interval_of_sorted sp hstrict l2 u2 (by omega) hu2n
      (sp.getD l2 0) (sp.getD (u2 - 1) 0) rfl rfl]
    rfl
  rw [hfilter]
  rcases hor with hcase | hcase
  · exact hcase
  · rw [hcase.1, hcase.2, idxSum_full]
    have hsum : (sp.map get).sum = total := by
      rw [htot, ← keys_map_dictGetD bins hnd]
      exact List.Perm.sum_eq (hperm.map _)
    rw [hsum, htarget, VP_VALUE_AREA_PCT]
    have htot_nonneg : 0 ≤ total := by
      rw [htot]
      apply List.sum_nonneg
      intro x hx
      obtain ⟨pv, hpv, hpvx⟩ := List.mem_map.mp hx
      rw [← hpvx]
      exact le_of_lt (hvals pv hpv)
    linarith [htot_nonneg]

theorem dictAdd_mem_keys (bins : List (ℚ × ℚ)) (k v x : ℚ)
    (h : x ∈ (dictAdd bins k v).map Prod.fst) :
    x ∈ bins.map Prod.fst ∨ x = k := by
  induction bins with
  | nil =>
    simp [dictAdd] at h
    exact Or.inr h
  | cons pv rest ih =>
    rw [dictAdd] at h
    split_ifs at h with hpk
    · rw [List.map_cons] at h ⊢
      rcases List.mem_cons.mp h with heq | hm
      · exact Or.inl (List.mem_cons.mpr (Or.inl heq))
      · exact Or.inl (List.mem_cons.mpr (Or.inr hm))
    · rw [List.map_cons] at h ⊢
      rcases List.mem_cons.mp h with heq | hm
      · exact Or.inl (List.mem_cons.mpr (Or.inl heq))
      · rcases ih hm with hin | hk
        · exact Or.inl (List.mem_cons.mpr (Or.inr hin))
        · exact Or.inr hk

theorem dictAdd_keys_nodup (bins : List (ℚ × ℚ)) (k v : ℚ)
    (hnd : (bins.map Prod.fst).Nodup) :
    ((dictAdd bins k v).map Prod.fst).Nodup := by
  induction bins with
  | nil => simp [dictAdd]
  | cons pv rest ih =>
    rw [List.map_cons] at hnd
    have hhead := (List.nodup_cons.mp hnd).1
    have htail := (List.nodup_cons.mp hnd).2
    rw [dictAdd]
    split_ifs with hpk
    · rw [List.map_cons]
      exact List.nodup_cons.mpr ⟨hhead, htail⟩
    · rw [List.map_cons]
      refine List.nodup_cons.mpr ⟨?_, ih htail⟩
      intro hmem
      rcases dictAdd_mem_keys rest k v pv.1 hmem with hin | heq
      · exact hhead hin
      · exact hpk heq

theorem dictAdd_vals_pos (bins : List (ℚ × ℚ)) (k v : ℚ) (hv : 0 < v)
    (hvals : ∀ pv ∈ bins, 0 < pv.2) :
    ∀ pv ∈ dictAdd bins k v, 0 < pv.2 := by
  induction bins with
  | nil =>
    intro pv hpv
    simp [dictAdd] at hpv
    rw [hpv]
    exact hv
  | cons qv rest ih =>
    intro pv hpv
    rw [dictAdd] at hpv
    split_ifs at hpv with hqk
    · rcases List.mem_cons.mp hpv with heq | hm
      · rw [heq]
        have := hvals qv (List.mem_cons_self _ _)
        dsimp only
        linarith
      · exact hvals pv (List.mem_cons_of_mem _ hm)
    · rcases List.mem_cons.mp hpv with heq | hm
      · rw [heq]
        exact hvals qv (List.mem_cons_self _ _)
      · exact ih (fun q hq => hvals q (List.mem_cons_of_mem _ hq)) pv hm

theorem foldl_dictAdd_nodup (f : ℕ → ℚ) (v : ℚ) (l : List ℕ) :
    ∀ bins : List (ℚ × ℚ), (bins.map Prod.fst).Nodup →
      (((l.foldl (fun b (k : ℕ) => dictAdd b (f k) v) bins)).map
        Prod.fst).Nodup := by
  induction l with
  | nil => intro bins hnd; simpa using hnd
  | cons i l ih =>
    intro bins hnd
    rw [List.foldl_cons]
    exact ih _ (dictAdd_keys_nodup bins (f i) v hnd)

theorem foldl_dictAdd_pos (f : ℕ → ℚ) (v : ℚ) (hv : 0 < v) (l : List ℕ) :
    ∀ bins : List (ℚ × ℚ), (∀ pv ∈ bins, 0 < pv.2) →
      ∀ pv ∈ l.foldl (fun b (k : ℕ) => dictAdd b (f k) v) bins, 0 < pv.2 := by
  induction l with
  | nil => intro bins hvals pv hpv; exact hvals pv (by simpa using hpv)
  | cons i l ih =>
    intro bins hvals pv hpv
    rw [List.foldl_cons] at hpv
    exact ih _ (dictAdd_vals_pos bins (f i) v hv hvals) pv hpv

theorem addCandle_keys_nodup (bs : ℚ) (c : Candle) (bins : List (ℚ × ℚ))
    (hnd : (bins.map Prod.fst).Nodup) :
    ((addCandle bs bins c).map Prod.fst).Nodup := by
  rw [addCandle]
  split_ifs with hg
  · exact hnd
  · exact foldl_dictAdd_nodup _ _ _ bins hnd

theorem addCandle_vals_pos (bs : ℚ) (c : Candle) (bins : List (ℚ × ℚ))
    (hvals : ∀ pv ∈ bins, 0 < pv.2) :
    ∀ pv ∈ addCandle bs bins c, 0 < pv.2 := by
  rw [addCandle]
  split_ifs with hg
  · exact hvals
  · push_neg at hg
    have hnb : (0:ℚ) <
        ((max 1 (roundHalfEven ((↑⌊c.high / bs⌋ * bs - ↑⌊c.low / bs⌋ * bs) /
          bs) + 1) : ℤ) : ℚ) := by
      have : (1:ℤ) ≤ max 1 (roundHalfEven ((↑⌊c.high / bs⌋ * bs -
          ↑⌊c.low / bs⌋ * bs) / bs) + 1) := le_max_left _ _
      exact_mod_cast lt_of_lt_of_le zero_lt_one (by exact_mod_cast this)
    exact foldl_dictAdd_pos _ _ (div_pos hg.1 hnb) _ bins hvals

theorem profile_bins_nodup (binSize : ℚ) (candles : List Candle) :
    ∀ bins : List (ℚ × ℚ), (bins.map Prod.fst).Nodup →
      (((candles.foldl (addCandle binSize) bins)).map Prod.fst).Nodup := by
  induction candles with
  | nil => intro bins hnd; simpa using hnd
  | cons c cs ih =>
    intro bins hnd
    rw [List.foldl_cons]
    exact ih _ (addCandle_keys_nodup binSize c bins hnd)

theorem profile_bins_pos (binSize : ℚ) (candles : List Candle) :
    ∀ bins : List (ℚ × ℚ), (∀ pv ∈ bins, 0 < pv.2) →
      ∀ pv ∈ candles.foldl (addCandle binSize) bins, 0 < pv.2 := by
  induction candles with
  | nil => intro bins hvals pv hpv; exact hvals pv (by simpa using hpv)
  | cons c cs ih =>
    intro bins hvals pv hpv
    rw [List.foldl_cons] at hpv
    exact ih _ (addCandle_vals_pos binSize c bins hvals) pv hpv

/-- C2: For every profile returned by `calculate_volume_profile`,
`va_low ≤ poc ≤ va_high`, and the bins of the profile whose prices lie
in the closed interval `[va_low, va_high]` carry at least
`VP_VALUE_AREA_PCT` percent of the total volume — the value-area
expansion (starting at the POC bin and repeatedly adding the adjacent
bin on the side with more volume, a tie favouring the higher side)
never stops short of the target fraction, even when one or both sides
run out of bins. -/
theorem value_area_invariant (candles : List Candle) (binSize : ℚ)
    (prof : VolumeProfile)
    (h : calcVolumeProfile candles binSize = some prof) :
    prof.vaLow ≤ prof.poc ∧ prof.poc ≤ prof.vaHigh ∧
    prof.totalVolume * (VP_VALUE_AREA_PCT / 100) ≤
      ((prof.bins.filter (fun pv =>
        prof.vaLow ≤ pv.1 ∧ pv.1 ≤ prof.vaHigh)).map Prod.snd).sum := by
  simp only [calcVolumeProfile] at h
  split_ifs at h with h1 h2 h3 h4
  · -- the success branch
    have hprof := Option.some.inj h
    set bins := candles.foldl (addCandle binSize) [] with hbins
    have hnd : (bins.map Prod.fst).Nodup :=
      profile_bins_nodup binSize candles [] (by simp)
    have hvals : ∀ pv ∈ bins, 0 < pv.2 :=
      profile_bins_pos binSize candles [] (by simp)
    have hne : bins ≠ [] := h4
    have hpoc : pyMaxByValue bins ∈ bins.map Prod.fst :=
      pyMaxByValue_mem_keys bins hne
    have hspec := computeValueArea_spec bins (pyMaxByValue bins) binSize
      ((bins.map Prod.snd).sum) hnd hvals hpoc rfl
    have hpb : prof.bins =
        List.insertionSort (fun a b : ℚ × ℚ => a.1 ≤ b.1) bins := by
      rw [← hprof]
    have hppoc : prof.poc = pyMaxByValue bins := by rw [← hprof]
    have hph : prof.vaHigh = (computeValueArea bins (pyMaxByValue bins)
        binSize ((bins.map Prod.snd).sum)).1 := by rw [← hprof]
    have hpl : prof.vaLow = (computeValueArea bins (pyMaxByValue bins)
        binSize ((bins.map Prod.snd).sum)).2 := by rw [← hprof]
    have hpt : prof.totalVolume = (bins.map Prod.snd).sum := by
      rw [← hprof]
    refine ⟨?_, ?_, ?_⟩
    · rw [hpl, hppoc]
      exact hspec.1
    · rw [hph, hppoc]
      exact hspec.2.1
    · rw [hpl, hph, hpt, hpb]
      have hperm : List.Perm
          (List.insertionSort (fun a b : ℚ × ℚ => a.1 ≤ b.1) bins) bins :=
        List.perm_insertionSort _ _
      have hpf := hperm.filter (fun pv : ℚ × ℚ =>
        decide ((computeValueArea bins (pyMaxByValue bins) binSize
            ((bins.map Prod.snd).sum)).2 ≤ pv.1 ∧
          pv.1 ≤ (computeValueArea bins (pyMaxByValue bins) binSize
            ((bins.map Prod.snd).sum)).1))
      rw [List.Perm.sum_eq ((hpf).map Prod.snd)]
      exact hspec.2.2

/-- A lighter trading day spanning `[130, 140]` at volume 200,000. -/
def candleB : Candle :=
  { openPrice := 135, high := 140, low := 130, close := 135,
    volume := 200000 }

/-- The C4 scenario: 40 heavy candles in `[100, 110]` followed by 20
light candles in `[130, 140]`. -/
def candlesC4 : List Candle :=
  List.replicate 40 candleA ++ List.replicate 20 candleB

theorem addCandleA_nil : addCandle 5 [] candleA =
    [(100, 1000000/3), (105, 1000000/3), (110, 1000000/3)] := by
  rw [addCandle, if_neg (by norm_num [candleA])]
  simp only [candleA]
  rw [show ((⌊(100:ℚ)/5⌋ : ℚ) * 5) = 100 by norm_num,
    show ((⌊(110:ℚ)/5⌋ : ℚ) * 5) = 110 by norm_num,
    show candleSteps 5 100 110 = 3 by
      rw [candleSteps]
      norm_num
      decide,
    show List.range 3 = [0, 1, 2] from rfl]
  simp only [List.foldl_cons, List.foldl_nil]
  norm_num [dictAdd, pyRound2, pyRoundScaled, roundHalfEven, Int.fract]

theorem addCandleA_step (x y z : ℚ) :
    addCandle 5 [(100, x), (105, y), (110, z)] candleA =
      [(100, x + 1000000/3), (105, y + 1000000/3), (110, z + 1000000/3)] := by
  rw [addCandle, if_neg (by norm_num [candleA])]
  simp only [candleA]
  rw [show ((⌊(100:ℚ)/5⌋ : ℚ) * 5) = 100 by norm_num,
    show ((⌊(110:ℚ)/5⌋ : ℚ) * 5) = 110 by norm_num,
    show candleSteps 5 100 110 = 3 by
      rw [candleSteps]
      norm_num
      decide,
    show List.range 3 = [0, 1, 2] from rfl]
  simp only [List.foldl_cons, List.foldl_nil]
  norm_num [dictAdd, pyRound2, pyRoundScaled, roundHalfEven, Int.fract]

theorem addCandleB_first (x y z : ℚ) :
    addCandle 5 [(100, x), (105, y), (110, z)] candleB =
      [(100, x), (105, y), (110, z),
       (130, 200000/3), (135, 200000/3), (140, 200000/3)] := by
  rw [addCandle, if_neg (by norm_num [candleB])]
  simp only [candleB]
  rw [show ((⌊(130:ℚ)/5⌋ : ℚ) * 5) = 130 by norm_num,
    show ((⌊(140:ℚ)/5⌋ : ℚ) * 5) = 140 by norm_num,
    show candleSteps 5 130 140 = 3 by
      rw [candleSteps]
      norm_num
      decide,
    show List.range 3 = [0, 1, 2] from rfl]
  simp only [List.foldl_cons, List.foldl_nil]
  norm_num [dictAdd, pyRound2, pyRoundScaled, roundHalfEven, Int.fract]

theorem addCandleB_step (x y z u v w : ℚ) :
    addCandle 5 [(100, x), (105, y), (110, z), (130, u), (135, v),
      (140, w)] candleB =
      [(100, x), (105, y), (110, z),
       (130, u + 200000/3), (135, v + 200000/3), (140, w + 200000/3)] := by
  rw [addCandle, if_neg (by norm_num [candleB])]
  simp only [candleB]
  rw [show ((⌊(130:ℚ)/5⌋ : ℚ) * 5) = 130 by norm_num,
    show ((⌊(140:ℚ)/5⌋ : ℚ) * 5) = 140 by norm_num,
    show candleSteps 5 130 140 = 3 by
      rw [candleSteps]
      norm_num
      decide,
    show List.range 3 = [0, 1, 2] from rfl]
  simp only [List.foldl_cons, List.foldl_nil]
  norm_num [dictAdd, pyRound2, pyRoundScaled, roundHalfEven, Int.fract]

theorem foldA_replicate :
    ∀ (n : ℕ) (x y z : ℚ),
      (List.replicate n candleA).foldl (addCandle 5)
          [(100, x), (105, y), (110, z)] =
        [(100, x + n * (1000000/3)), (105, y + n * (1000000/3)),
         (110, z + n * (1000000/3))] := by
  intro n
  induction n with
  | zero => intro x y z; simp
  | succ m ih =>
    intro x y z
    rw [List.replicate_succ, List.foldl_cons, addCandleA_step, ih]
    push_cast
    ring_nf

theorem foldB_replicate :
    ∀ (n : ℕ) (x y z u v w : ℚ),
      (List.replicate n candleB).foldl (addCandle 5)
          [(100, x), (105, y), (110, z), (130, u), (135, v), (140, w)] =
        [(100, x), (105, y), (110, z), (130, u + n * (200000/3)),
         (135, v + n * (200000/3)), (140, w + n * (200000/3))] := by
  intro n
  induction n with
  | zero => intro x y z u v w; simp
  | succ m ih =>
    intro x y z u v w
    rw [List.replicate_succ, List.foldl_cons, addCandleB_step, ih]
    push_cast
    ring_nf

theorem binsC4_eval : candlesC4.foldl (addCandle 5) [] =
    [(100, 40000000/3), (105, 40000000/3), (110, 40000000/3),
     (130, 4000000/3), (135, 4000000/3), (140, 4000000/3)] := by
  rw [candlesC4, List.foldl_append,
    show (40:ℕ) = 39 + 1 by norm_num, show (20:ℕ) = 19 + 1 by norm_num]
  rw [List.replicate_succ, List.foldl_cons, addCandleA_nil, foldA_replicate]
  rw [List.replicate_succ, List.foldl_cons]
  rw [show ((1000000:ℚ)/3 + (39:ℕ) * (1000000/3)) = 40000000/3 by
    push_cast; ring]
  rw [addCandleB_first, foldB_replicate]
  norm_num

theorem vaC4_eval : computeValueArea
    [(100, 40000000/3), (105, 40000000/3), (110, 40000000/3),
     (130, 4000000/3), (135, 4000000/3), (140, 4000000/3)] 100 5 44000000 =
    (110, 100) := by
  have hsp : List.insertionSort (fun a b : ℚ => a ≤ b)
      (([(100, (40000000:ℚ)/3), (105, 40000000/3), (110, 40000000/3),
         (130, 4000000/3), (135, 4000000/3), (140, 4000000/3)]).map
        Prod.fst) = [100, 105, 110, 130, 135, 140] := by
    norm_num [List.insertionSort, List.orderedInsert]
  have hlen : ([100, 105, 110, 130, 135, 140] : List ℚ).length = 6 := rfl
  have hrange : List.range (6:ℕ) = [0, 1, 2, 3, 4, 5] := rfl
  have hpoc : pocIdxOf [100, 105, 110, 130, 135, 140] 100 = 0 := by
    simp only [pocIdxOf, hlen, hrange]
    norm_num [pyMinByKey, List.foldl, List.getD, abs_eq_max_neg]
  have hacc : dictGetD
      [(100, (40000000:ℚ)/3), (105, 40000000/3), (110, 40000000/3),
       (130, 4000000/3), (135, 4000000/3), (140, 4000000/3)] 100 0 =
      40000000/3 := by
    norm_num [dictGetD, List.find?]
  simp only [computeValueArea, hsp, hlen, hpoc, hacc, VP_VALUE_AREA_PCT]
  rw [vaLoop]
  norm_num [volUpAt, volDnAt, dictGetD, List.find?, List.getD]
  rw [show (6:ℕ) = 5 + 1 from rfl, vaLoop]
  norm_num [volUpAt, volDnAt, dictGetD, List.find?, List.getD]
  rw [show (5:ℕ) = 4 + 1 from rfl, vaLoop]
  norm_num [volUpAt, volDnAt, dictGetD, List.find?, List.getD]

/-- The profile `calculate_volume_profile` produces for the C4
scenario. -/
def profC4 : VolumeProfile :=
  { bins := [(100, 40000000/3), (105, 40000000/3), (110, 40000000/3),
             (130, 4000000/3), (135, 4000000/3), (140, 4000000/3)]
    poc := 100
    vaHigh := 110
    vaLow := 100
    totalVolume := 44000000
    binSize := 5
    adv := 733333 }

theorem vp_evalC4 : calcVolumeProfile candlesC4 5 = some profC4 := by
  have hvol : (candlesC4.filter (fun c => 0 < c.volume)).map Candle.volume =
      List.replicate 40 (1000000:ℚ) ++ List.replicate 20 (200000:ℚ) := by
    rw [candlesC4, List.filter_append,
      List.filter_replicate_of_pos (by norm_num [candleA]),
      List.filter_replicate_of_pos (by norm_num [candleB]),
      List.map_append, List.map_replicate, List.map_replicate]
    rfl
  have hlen60 : candlesC4.length = 60 := by
    rw [candlesC4]
    simp
  have hvsum : ((List.replicate 40 (1000000:ℚ) ++
      List.replicate 20 (200000:ℚ)).sum) = 44000000 := by
    rw [List.sum_append, List.sum_replicate, List.sum_replicate]
    norm_num
  have hvlen : ((List.replicate 40 (1000000:ℚ) ++
      List.replicate 20 (200000:ℚ)).length : ℚ) = 60 := by
    simp
  have hpocv : pyMaxByValue
      [(100, (40000000:ℚ)/3), (105, 40000000/3), (110, 40000000/3),
       (130, 4000000/3), (135, 4000000/3), (140, 4000000/3)] = 100 := by
    norm_num [pyMaxByValue, pyMaxByKey, List.foldl]
  have htotv : (([(100, (40000000:ℚ)/3), (105, 40000000/3),
      (110, 40000000/3), (130, 4000000/3), (135, 4000000/3),
      (140, 4000000/3)]).map Prod.snd).sum = 44000000 := by
    norm_num
  have hsorted : List.insertionSort (fun a b : ℚ × ℚ => a.1 ≤ b.1)
      [(100, (40000000:ℚ)/3), (105, 40000000/3), (110, 40000000/3),
       (130, 4000000/3), (135, 4000000/3), (140, 4000000/3)] =
      [(100, (40000000:ℚ)/3), (105, 40000000/3), (110, 40000000/3),
       (130, 4000000/3), (135, 4000000/3), (140, 4000000/3)] := by
    norm_num [List.insertionSort, List.orderedInsert]
  simp only [calcVolumeProfile, hvol, binsC4_eval, hlen60]
  rw [if_neg (by norm_num)]
  rw [if_neg (by simp)]
  rw [if_neg (by rw [hvsum, hvlen]; norm_num [VP_MIN_ADV])]
  rw [if_neg (by simp)]
  rw [hvsum, hvlen, hpocv]
  norm_num [htotv, vaC4_eval, hsorted, profC4, pyRoundScaled, roundHalfEven]

theorem hvnC4_eval : findHvnWalls profC4 120 =
    { supportWall := some 110, resistanceWall := none,
      allHvns := [100, 105, 110] } := by
  norm_num [findHvnWalls, profC4, VP_HVN_MULTIPLIER, List.insertionSort,
    List.orderedInsert, List.getLast?]
  intro h
  simp at h

/-- C4: for 40 candles spanning `[100, 110]` at volume 1,000,000 and 20
candles spanning `[130, 140]` at volume 200,000, with `bin_size = 5`,
`calculate_volume_profile` puts the POC in `[100, 110]`, and
`find_hvn_walls` at spot 120 reports no resistance wall (the 130-140
zone misses the HVN threshold) but a support wall. -/
theorem vp_scenario_c4 :
    ∃ prof : VolumeProfile, calcVolumeProfile candlesC4 5 = some prof ∧
      100 ≤ prof.poc ∧ prof.poc ≤ 110 ∧
      (findHvnWalls prof 120).resistanceWall = none ∧
      (findHvnWalls prof 120).supportWall ≠ none := by
  refine ⟨profC4, vp_evalC4, by norm_num [profC4], by norm_num [profC4],
    ?_, ?_⟩
  · rw [hvnC4_eval]
  · rw [hvnC4_eval]
    simp

/-- C2 witness: `value_area_invariant` at the concrete C4 candle set and
its computed profile. -/
theorem value_area_invariant_witness :
    profC4.vaLow ≤ profC4.poc ∧ profC4.poc ≤ profC4.vaHigh ∧
    profC4.totalVolume * (VP_VALUE_AREA_PCT / 100) ≤
      ((profC4.bins.filter (fun pv =>
        profC4.vaLow ≤ pv.1 ∧ pv.1 ≤ profC4.vaHigh)).map Prod.snd).sum :=
  value_area_invariant candlesC4 5 profC4 vp_evalC4

/-! ## Strike selection
(`src/analyst/strike_selector.py`) -/

/-- Config constant `DEFAULT_SPREAD_WIDTH` (`src/config.py`). -/
def DEFAULT_SPREAD_WIDTH : ℕ := 1

/-- `instrument_type` of an NFO option instrument. -/
inductive OptType where
  | CE
  | PE
  deriving DecidableEq, Repr

/-- An option-chain instrument dict (fields the selector reads).
`expiry` is `none` when the dict lacks the key; `lotSize` likewise. -/
structure OptionInst where
  tradingsymbol : String
  strike : ℚ
  instType : OptType
  expiry : Option PyDate
  lotSize : Option ℤ
  deriving DecidableEq, Repr

/-- Descending-strike order (`sorted(..., key=strike, reverse=True)`). -/
def strikeDesc (a b : OptionInst) : Prop := b.strike ≤ a.strike

instance : DecidableRel strikeDesc := fun a b =>
  inferInstanceAs (Decidable (b.strike ≤ a.strike))

instance : IsTotal OptionInst strikeDesc :=
  ⟨fun a b => le_total b.strike a.strike⟩

instance : IsTrans OptionInst strikeDesc :=
  ⟨fun _ _ _ hab hbc => le_trans hbc hab⟩

/-- Ascending-strike order (`sorted(..., key=strike)`). -/
def strikeAsc (a b : OptionInst) : Prop := a.strike ≤ b.strike

instance : DecidableRel strikeAsc := fun a b =>
  inferInstanceAs (Decidable (a.strike ≤ b.strike))

instance : IsTotal OptionInst strikeAsc :=
  ⟨fun a b => le_total a.strike b.strike⟩

instance : IsTrans OptionInst strikeAsc :=
  ⟨fun _ _ _ hab hbc => le_trans hab hbc⟩

/-- `_is_last_thursday_of_month`: a Wednesday/Thursday expiry with no
later expiry in the same calendar month. -/
def isLastThuOfMonth (exp : PyDate) (allExp : List PyDate) : Bool :=
  if exp.weekday = 2 ∨ exp.weekday = 3 then
    (allExp.filter (fun e =>
      e.year = exp.year ∧ e.month = exp.month ∧ exp.serial < e.serial)) = []
  else false

/-- `find_nearest_monthly_expiry` (`src/analyst/strike_selector.py`,
lines 38-92): unique future expiries; nearest "monthly" one; else the
first expiry at least 15 days out; else the nearest expiry. -/
def findNearestMonthlyExpiry (chain : List OptionInst) (today : PyDate) :
    Option PyDate :=
  let uniq := ((chain.filterMap OptionInst.expiry).filter
    (fun e => today.serial ≤ e.serial)).dedup
  if uniq = [] then none
  else
    let sortedExp := List.insertionSort
      (fun a b : PyDate => a.serial ≤ b.serial) uniq
    let monthly := sortedExp.filter (fun e => isLastThuOfMonth e uniq)
    match monthly with
    | m :: _ => some m
    | [] =>
      match sortedExp.find? (fun e => 15 ≤ e.serial - today.serial) with
      | some e => some e
      | none => sortedExp.head?

/-- `_filter_by_expiry`: instruments whose expiry matches the target. -/
def filterByExpiry (chain : List OptionInst) (e : PyDate) :
    List OptionInst :=
  chain.filter (fun i => i.expiry = some e)

/-- The dict returned by `select_strikes`. -/
structure SpreadRec where
  spreadType : String
  shortStrike : ℚ
  longStrike : ℚ
  shortType : OptType
  longType : OptType
  shortInstrument : OptionInst
  longInstrument : OptionInst
  expiry : PyDate
  lotSize : ℤ
  deriving DecidableEq, Repr

/-- `puts` in `_select_bull_put_spread` (`src/analyst/strike_selector.py`,
lines 222-226): PE instruments of the chain, sorted by strike descending. -/
def bullPuts (chain : List OptionInst) : List OptionInst :=
  List.insertionSort strikeDesc
    (chain.filter (fun i => i.instType = OptType.PE))

/-- `short_inst` determination in `_select_bull_put_spread` (lines
232-246): the first put with strike at or below the support wall and
below spot; else the OTM put nearest the wall. -/
def bullShort (supportWall spot : ℚ) (chain : List OptionInst) :
    Option OptionInst :=
  match (bullPuts chain).find?
    (fun i => i.strike ≤ supportWall ∧ i.strike < spot) with
  | some i => some i
  | none =>
    match (bullPuts chain).filter (fun (i : OptionInst) => i.strike < spot)
      with
    | [] => none
    | x :: xs => some (pyMinByKey (fun i => |i.strike - supportWall|) x xs)

/-- `lower_puts` (lines 251-255): puts strictly below the short strike,
sorted descending. -/
def bullLower (chain : List OptionInst) (shortInst : OptionInst) :
    List OptionInst :=
  List.insertionSort strikeDesc
    ((bullPuts chain).filter (fun i => i.strike < shortInst.strike))

/-- `_select_bull_put_spread` (`src/analyst/strike_selector.py`, lines
208-285).  The long leg is `lower_puts[spread_width - 1]`; Python's
negative indexing at `spread_width = 0` selects the last element, and an
out-of-range index (a Python `IndexError`) is modelled as `none`. -/
def selectBullPut (supportWall spot : ℚ) (chain : List OptionInst)
    (e : PyDate) (spreadWidth : ℕ) : Option SpreadRec :=
  if bullPuts chain = [] then none
  else
    match bullShort supportWall spot chain with
    | none => none
    | some shortInst =>
      if (bullLower chain shortInst).length < spreadWidth then none
      else
        match (if spreadWidth = 0 then (bullLower chain shortInst).getLast?
               else (bullLower chain shortInst).get? (spreadWidth - 1)) with
        | none => none
        | some longInst =>
          some { spreadType := "BULL_PUT"
                 shortStrike := shortInst.strike
                 longStrike := longInst.strike
                 shortType := OptType.PE
                 longType := OptType.PE
                 shortInstrument := shortInst
                 longInstrument := longInst
                 expiry := e
                 lotSize := shortInst.lotSize.getD 1 }

/-- `calls` in `_select_bear_call_spread` (lines 302-305): CE
instruments of the chain, sorted by strike ascending. -/
def bearCalls (chain : List OptionInst) : List OptionInst :=
  List.insertionSort strikeAsc
    (chain.filter (fun i => i.instType = OptType.CE))

/-- `short_inst` determination in `_select_bear_call_spread` (lines
311-324): the first call with strike at or above the resistance wall and
above spot; else the OTM call nearest the wall. -/
def bearShort (resistanceWall spot : ℚ) (chain : List OptionInst) :
    Option OptionInst :=
  match (bearCalls chain).find?
    (fun i => resistanceWall ≤ i.strike ∧ spot < i.strike) with
  | some i => some i
  | none =>
    match (bearCalls chain).filter (fun (i : OptionInst) => spot < i.strike)
      with
    | [] => none
    | x :: xs =>
      some (pyMinByKey (fun i => |i.strike - resistanceWall|) x xs)

/-- `higher_calls` (lines 329-332): calls strictly above the short
strike, sorted ascending. -/
def bearHigher (chain : List OptionInst) (shortInst : OptionInst) :
    List OptionInst :=
  List.insertionSort strikeAsc
    ((bearCalls chain).filter (fun i => shortInst.strike < i.strike))

/-- `_select_bear_call_spread` (`src/analyst/strike_selector.py`, lines
288-362), the mirror image of the bull put. -/
def selectBearCall (resistanceWall spot : ℚ) (chain : List OptionInst)
    (e : PyDate) (spreadWidth : ℕ) : Option SpreadRec :=
  if bearCalls chain = [] then none
  else
    match bearShort resistanceWall spot chain with
    | none => none
    | some shortInst =>
      if (bearHigher chain shortInst).length < spreadWidth then none
      else
        match (if spreadWidth = 0 then (bearHigher chain shortInst).getLast?
               else (bearHigher chain shortInst).get? (spreadWidth - 1)) with
        | none => none
        | some longInst =>
          some { spreadType := "BEAR_CALL"
                 shortStrike := shortInst.strike
                 longStrike := longInst.strike
                 shortType := OptType.CE
                 longType := OptType.CE
                 shortInstrument := shortInst
                 longInstrument := longInst
                 expiry := e
                 lotSize := shortInst.lotSize.getD 1 }

/-- `select_strikes` (`src/analyst/strike_selector.py`, lines 122-188):
resolve the expiry, filter the chain to it, and route by trend;
unrecognized trends give `none`. -/
def selectStrikes (wallPrice spot : ℚ) (trend : String)
    (chain : List OptionInst) (today : PyDate)
    (targetExpiry : Option PyDate := none)
    (spreadWidthStrikes : ℕ := DEFAULT_SPREAD_WIDTH) : Option SpreadRec :=
  match (match targetExpiry with
         | none => findNearestMonthlyExpiry chain today
         | some e => some e) with
  | none => none
  | some e =>
    if filterByExpiry chain e = [] then none
    else if trend = "Bullish" then
      selectBullPut wallPrice spot (filterByExpiry chain e) e
        spreadWidthStrikes
    else if trend = "Bearish" then
      selectBearCall wallPrice spot (filterByExpiry chain e) e
        spreadWidthStrikes
    else none

theorem mem_bullPuts (chain : List OptionInst) (i : OptionInst) :
    i ∈ bullPuts chain ↔ i ∈ chain ∧ i.instType = OptType.PE := by
  rw [bullPuts, (List.perm_insertionSort strikeDesc _).mem_iff,
    List.mem_filter]
  simp only [decide_eq_true_eq]

theorem mem_bearCalls (chain : List OptionInst) (i : OptionInst) :
    i ∈ bearCalls chain ↔ i ∈ chain ∧ i.instType = OptType.CE := by
  rw [bearCalls, (List.perm_insertionSort strikeAsc _).mem_iff,
    List.mem_filter]
  simp only [decide_eq_true_eq]

theorem mem_bullLower (chain : List OptionInst) (si i : OptionInst) :
    i ∈ bullLower chain si ↔ i ∈ bullPuts chain ∧ i.strike < si.strike := by
  rw [bullLower, (List.perm_insertionSort strikeDesc _).mem_iff,
    List.mem_filter]
  simp only [decide_eq_true_eq]

theorem mem_bearHigher (chain : List OptionInst) (si i : OptionInst) :
    i ∈ bearHigher chain si ↔ i ∈ bearCalls chain ∧ si.strike < i.strike := by
  rw [bearHigher, (List.perm_insertionSort strikeAsc _).mem_iff,
    List.mem_filter]
  simp only [decide_eq_true_eq]

theorem mem_filterByExpiry (chain : List OptionInst) (e : PyDate)
    (i : OptionInst) :
    i ∈ filterByExpiry chain e ↔ i ∈ chain ∧ i.expiry = some e := by
  rw [filterByExpiry, List.mem_filter]
  simp only [decide_eq_true_eq]

theorem bullShort_spec (w s : ℚ) (chain : List OptionInst)
    (si : OptionInst) (h : bullShort w s chain = some si) :
    si ∈ bullPuts chain ∧ si.strike < s ∧
      (si.strike ≤ w ∨
        ((∀ i ∈ bullPuts chain, ¬(i.strike ≤ w ∧ i.strike < s)) ∧
         (∀ i ∈ bullPuts chain, i.strike < s →
            |si.strike - w| ≤ |i.strike - w|))) := by
  rw [bullShort] at h
  split at h
  case h_1 i hfind =>
    obtain rfl : i = si := Option.some.inj h
    have hmem := List.mem_of_find?_eq_some hfind
    have hp := List.find?_some hfind
    simp only [decide_eq_true_eq] at hp
    exact ⟨hmem, hp.2, Or.inl hp.1⟩
  case h_2 hfind =>
    have hnone := List.find?_eq_none.mp hfind
    split at h
    case h_1 => exact absurd h (by simp)
    case h_2 x xs hfil =>
      obtain rfl : pyMinByKey (fun i => |i.strike - w|) x xs = si :=
        Option.some.inj h
      have hmemfil : pyMinByKey (fun i => |i.strike - w|) x xs ∈
          (bullPuts chain).filter (fun (i : OptionInst) => i.strike < s) := by
        rw [hfil]; exact pyMinByKey_mem _ x xs
      rw [List.mem_filter] at hmemfil
      simp only [decide_eq_true_eq] at hmemfil
      refine ⟨hmemfil.1, hmemfil.2, Or.inr ⟨?_, ?_⟩⟩
      · intro i hi hcon
        have := hnone i hi
        simp only [decide_eq_true_eq] at this
        exact this hcon
      · intro i hi his
        have hifil : i ∈
            (bullPuts chain).filter (fun (i : OptionInst) => i.strike < s) := by
          rw [List.mem_filter]
          simp only [decide_eq_true_eq]
          exact ⟨hi, his⟩
        rw [hfil] at hifil
        have H := pyMinByKey_le (fun (j : OptionInst) => |j.strike - w|)
          x xs i hifil
        simpa using H

theorem bearShort_spec (w s : ℚ) (chain : List OptionInst)
    (si : OptionInst) (h : bearShort w s chain = some si) :
    si ∈ bearCalls chain ∧ s < si.strike ∧
      (w ≤ si.strike ∨
        ((∀ i ∈ bearCalls chain, ¬(w ≤ i.strike ∧ s < i.strike)) ∧
         (∀ i ∈ bearCalls chain, s < i.strike →
            |si.strike - w| ≤ |i.strike - w|))) := by
  rw [bearShort] at h
  split at h
  case h_1 i hfind =>
    obtain rfl : i = si := Option.some.inj h
    have hmem := List.mem_of_find?_eq_some hfind
    have hp := List.find?_some hfind
    simp only [decide_eq_true_eq] at hp
    exact ⟨hmem, hp.2, Or.inl hp.1⟩
  case h_2 hfind =>
    have hnone := List.find?_eq_none.mp hfind
    split at h
    case h_1 => exact absurd h (by simp)
    case h_2 x xs hfil =>
      obtain rfl : pyMinByKey (fun i => |i.strike - w|) x xs = si :=
        Option.some.inj h
      have hmemfil : pyMinByKey (fun i => |i.strike - w|) x xs ∈
          (bearCalls chain).filter (fun (i : OptionInst) => s < i.strike) := by
        rw [hfil]; exact pyMinByKey_mem _ x xs
      rw [List.mem_filter] at hmemfil
      simp only [decide_eq_true_eq] at hmemfil
      refine ⟨hmemfil.1, hmemfil.2, Or.inr ⟨?_, ?_⟩⟩
      · intro i hi hcon
        have := hnone i hi
        simp only [decide_eq_true_eq] at this
        exact this hcon
      · intro i hi his
        have hifil : i ∈
            (bearCalls chain).filter (fun (i : OptionInst) => s < i.strike) := by
          rw [List.mem_filter]
          simp only [decide_eq_true_eq]
          exact ⟨hi, his⟩
        rw [hfil] at hifil
        have H := pyMinByKey_le (fun (j : OptionInst) => |j.strike - w|)
          x xs i hifil
        simpa using H

theorem selectBullPut_inv (w s : ℚ) (chain : List OptionInst) (e : PyDate)
    (wd : ℕ) (rec : SpreadRec)
    (h : selectBullPut w s chain e wd = some rec) :
    ∃ si li : OptionInst,
      bullShort w s chain = some si ∧
      wd ≤ (bullLower chain si).length ∧
      (if wd = 0 then (bullLower chain si).getLast?
       else (bullLower chain si).get? (wd - 1)) = some li ∧
      rec = { spreadType := "BULL_PUT", shortStrike := si.strike,
              longStrike := li.strike, shortType := OptType.PE,
              longType := OptType.PE, shortInstrument := si,
              longInstrument := li, expiry := e,
              lotSize := si.lotSize.getD 1 } := by
  rw [selectBullPut] at h
  split at h
  · exact absurd h (by simp)
  · split at h
    case h_1 => exact absurd h (by simp)
    case h_2 si hsi =>
      split at h
      · exact absurd h (by simp)
      case isFalse hlen =>
        split at h
        case h_1 => exact absurd h (by simp)
        case h_2 li hli =>
          exact ⟨si, li, hsi, by omega, hli, (Option.some.inj h).symm⟩

theorem selectBearCall_inv (w s : ℚ) (chain : List OptionInst) (e : PyDate)
    (wd : ℕ) (rec : SpreadRec)
    (h : selectBearCall w s chain e wd = some rec) :
    ∃ si li : OptionInst,
      bearShort w s chain = some si ∧
      wd ≤ (bearHigher chain si).length ∧
      (if wd = 0 then (bearHigher chain si).getLast?
       else (bearHigher chain si).get? (wd - 1)) = some li ∧
      rec = { spreadType := "BEAR_CALL", shortStrike := si.strike,
              longStrike := li.strike, shortType := OptType.CE,
              longType := OptType.CE, shortInstrument := si,
              longInstrument := li, expiry := e,
              lotSize := si.lotSize.getD 1 } := by
  rw [selectBearCall] at h
  split at h
  · exact absurd h (by simp)
  · split at h
    case h_1 => exact absurd h (by simp)
    case h_2 si hsi =>
      split at h
      · exact absurd h (by simp)
      case isFalse hlen =>
        split at h
        case h_1 => exact absurd h (by simp)
        case h_2 li hli =>
          exact ⟨si, li, hsi, by omega, hli, (Option.some.inj h).symm⟩

theorem selectStrikes_inv (wall spot : ℚ) (trend : String)
    (chain : List OptionInst) (today : PyDate) (te : Option PyDate)
    (wd : ℕ) (rec : SpreadRec)
    (h : selectStrikes wall spot trend chain today te wd = some rec) :
    ∃ e : PyDate,
      (match te with
       | none => findNearestMonthlyExpiry chain today
       | some x => some x) = some e ∧
      filterByExpiry chain e ≠ [] ∧
      ((trend = "Bullish" ∧
        selectBullPut wall spot (filterByExpiry chain e) e wd = some rec) ∨
       (trend ≠ "Bullish" ∧ trend = "Bearish" ∧
        selectBearCall wall spot (filterByExpiry chain e) e wd = some rec)) := by
  cases te with
  | none =>
    have h2 : (match findNearestMonthlyExpiry chain today with
               | none => none
               | some e =>
                 if filterByExpiry chain e = [] then none
                 else if trend = "Bullish" then
                   selectBullPut wall spot (filterByExpiry chain e) e wd
                 else if trend = "Bearish" then
                   selectBearCall wall spot (filterByExpiry chain e) e wd
                 else none) = some rec := h
    split at h2
    case h_1 => exact absurd h2 (by simp)
    case h_2 e he =>
      refine ⟨e, he, ?_⟩
      split at h2
      · exact absurd h2 (by simp)
      case isFalse hne =>
        refine ⟨hne, ?_⟩
        split at h2
        case isTrue ht => exact Or.inl ⟨ht, h2⟩
        case isFalse ht =>
          split at h2
          case isTrue ht2 => exact Or.inr ⟨ht, ht2, h2⟩
          case isFalse => exact absurd h2 (by simp)
  | some x =>
    have h2 : (if filterByExpiry chain x = [] then none
               else if trend = "Bullish" then
                 selectBullPut wall spot (filterByExpiry chain x) x wd
               else if trend = "Bearish" then
                 selectBearCall wall spot (filterByExpiry chain x) x wd
               else none) = some rec := h
    refine ⟨x, rfl, ?_⟩
    split at h2
    · exact absurd h2 (by simp)
    case isFalse hne =>
      refine ⟨hne, ?_⟩
      split at h2
      case isTrue ht => exact Or.inl ⟨ht, h2⟩
      case isFalse ht =>
        split at h2
        case isTrue ht2 => exact Or.inr ⟨ht, ht2, h2⟩
        case isFalse => exact absurd h2 (by simp)

theorem mem_of_pyIndex {α : Type} {l : List α} {wd : ℕ} {a : α}
    (h : (if wd = 0 then l.getLast? else l.get? (wd - 1)) = some a) :
    a ∈ l := by
  split at h
  · exact List.mem_of_mem_getLast? h
  · exact List.get?_mem h

/-- **C10**: every recommendation returned by `select_strikes` is
internally consistent: the spread type is `BULL_PUT` or `BEAR_CALL`, both
leg instruments have the option type recorded for them (PE for bull puts,
CE for bear calls), the recorded strikes are the legs' instrument strikes,
both leg instruments carry the resolved target expiry (which is the
expiry recorded in the recommendation), and the strikes are strictly
ordered: `long_strike < short_strike` for `BULL_PUT` and
`short_strike < long_strike` for `BEAR_CALL`. -/
theorem spread_internal_consistency (wall spot : ℚ) (trend : String)
    (chain : List OptionInst) (today : PyDate) (te : Option PyDate)
    (wd : ℕ) (rec : SpreadRec)
    (h : selectStrikes wall spot trend chain today te wd = some rec) :
    (rec.spreadType = "BULL_PUT" ∨ rec.spreadType = "BEAR_CALL") ∧
    rec.shortInstrument.instType = rec.shortType ∧
    rec.longInstrument.instType = rec.longType ∧
    rec.shortStrike = rec.shortInstrument.strike ∧
    rec.longStrike = rec.longInstrument.strike ∧
    rec.shortInstrument.expiry = some rec.expiry ∧
    rec.longInstrument.expiry = some rec.expiry ∧
    (match te with
     | none => findNearestMonthlyExpiry chain today
     | some x => some x) = some rec.expiry ∧
    (rec.spreadType = "BULL_PUT" →
      rec.shortType = OptType.PE ∧ rec.longType = OptType.PE ∧
      rec.longStrike < rec.shortStrike) ∧
    (rec.spreadType = "BEAR_CALL" →
      rec.shortType = OptType.CE ∧ rec.longType = OptType.CE ∧
      rec.shortStrike < rec.longStrike) := by
  obtain ⟨e, he, hne, hcase⟩ :=
    selectStrikes_inv wall spot trend chain today te wd rec h
  rcases hcase with ⟨htrend, hbp⟩ | ⟨hnb, htrend, hbc⟩
  · obtain ⟨si, li, hsi, hlen, hidx, hrec⟩ :=
      selectBullPut_inv _ _ _ _ _ _ hbp
    obtain ⟨hsimem, hsis, hshort⟩ := bullShort_spec _ _ _ _ hsi
    have hlimem : li ∈ bullLower (filterByExpiry chain e) si :=
      mem_of_pyIndex hidx
    rw [mem_bullLower] at hlimem
    obtain ⟨hlip, hlilt⟩ := hlimem
    rw [mem_bullPuts] at hsimem hlip
    obtain ⟨hsic, hsie⟩ := (mem_filterByExpiry _ _ _).mp hsimem.1
    obtain ⟨hlic, hlie⟩ := (mem_filterByExpiry _ _ _).mp hlip.1
    subst hrec
    refine ⟨Or.inl rfl, hsimem.2, hlip.2, rfl, rfl, hsie, hlie, he,
      fun _ => ⟨rfl, rfl, hlilt⟩, fun hcon => absurd hcon (by simp)⟩
  · obtain ⟨si, li, hsi, hlen, hidx, hrec⟩ :=
      selectBearCall_inv _ _ _ _ _ _ hbc
    obtain ⟨hsimem, hsis, hshort⟩ := bearShort_spec _ _ _ _ hsi
    have hlimem : li ∈ bearHigher (filterByExpiry chain e) si :=
      mem_of_pyIndex hidx
    rw [mem_bearHigher] at hlimem
    obtain ⟨hlip, hlilt⟩ := hlimem
    rw [mem_bearCalls] at hsimem hlip
    obtain ⟨hsic, hsie⟩ := (mem_filterByExpiry _ _ _).mp hsimem.1
    obtain ⟨hlic, hlie⟩ := (mem_filterByExpiry _ _ _).mp hlip.1
    subst hrec
    refine ⟨Or.inr rfl, hsimem.2, hlip.2, rfl, rfl, hsie, hlie, he,
      fun hcon => absurd hcon (by simp), fun _ => ⟨rfl, rfl, hlilt⟩⟩

/-- A monthly expiry date used in the concrete selector scenario. -/
def expW : PyDate := ⟨20388, 2025, 10, 3⟩

/-- The scan date of the concrete selector scenario. -/
def dayW : PyDate := ⟨20373, 2025, 10, 2⟩

/-- A 100-strike put at `expW`. -/
def instP100 : OptionInst :=
  ⟨"STKW25OCT100PE", 100, OptType.PE, some expW, some 50⟩

/-- A 95-strike put at `expW`. -/
def instP95 : OptionInst :=
  ⟨"STKW25OCT95PE", 95, OptType.PE, some expW, some 50⟩

/-- The recommendation produced in the concrete selector scenario. -/
def recW : SpreadRec :=
  { spreadType := "BULL_PUT", shortStrike := 100, longStrike := 95,
    shortType := OptType.PE, longType := OptType.PE,
    shortInstrument := instP100, longInstrument := instP95,
    expiry := expW, lotSize := 50 }

theorem selectStrikesW_eval :
    selectStrikes 100 110 "Bullish" [instP100, instP95] dayW (some expW) 1 =
      some recW := by
  norm_num [selectStrikes, filterByExpiry, selectBullPut, bullPuts,
    bullShort, bullLower, List.insertionSort, List.orderedInsert,
    strikeDesc, List.find?, List.filter, pyMinByKey, instP100, instP95,
    recW, List.getLast?, expW]
  constructor
  · intro hcon
    exact absurd hcon (List.cons_ne_nil _ _)
  · intro hcon
    exact absurd hcon (List.cons_ne_nil _ _)

theorem spread_internal_consistency_witness :
    (recW.spreadType = "BULL_PUT" ∨ recW.spreadType = "BEAR_CALL") ∧
    recW.shortInstrument.instType = recW.shortType ∧
    recW.longInstrument.instType = recW.longType ∧
    recW.shortStrike = recW.shortInstrument.strike ∧
    recW.longStrike = recW.longInstrument.strike ∧
    recW.shortInstrument.expiry = some recW.expiry ∧
    recW.longInstrument.expiry = some recW.expiry ∧
    (match (some expW : Option PyDate) with
     | none => findNearestMonthlyExpiry [instP100, instP95] dayW
     | some x => some x) = some recW.expiry ∧
    (recW.spreadType = "BULL_PUT" →
      recW.shortType = OptType.PE ∧ recW.longType = OptType.PE ∧
      recW.longStrike < recW.shortStrike) ∧
    (recW.spreadType = "BEAR_CALL" →
      recW.shortType = OptType.CE ∧ recW.longType = OptType.CE ∧
      recW.shortStrike < recW.longStrike) :=
  spread_internal_consistency 100 110 "Bullish" [instP100, instP95] dayW
    (some expW) 1 recW selectStrikesW_eval

/-- Strikes `a`, `a+d`, …, `a+(j-1)d` listed in descending order, the
shape of `lower_puts` strikes on a uniform strike grid. -/
def gridDesc (a d : ℚ) (j : ℕ) : List ℚ :=
  ((List.range j).map (fun k : ℕ => a + k * d)).reverse

theorem gridDesc_length (a d : ℚ) (j : ℕ) : (gridDesc a d j).length = j := by
  simp [gridDesc]

theorem gridDesc_get? (a d : ℚ) (j i : ℕ) (h : i < j) :
    (gridDesc a d j).get? i = some (a + (↑(j - 1 - i)) * d) := by
  have hlen : (gridDesc a d j).length = j := gridDesc_length a d j
  have h2 : i < (gridDesc a d j).length := by omega
  rw [List.get?_eq_get h2]
  congr 1
  rw [List.get_eq_getElem]
  simp only [gridDesc, List.getElem_reverse, List.getElem_map,
    List.getElem_range, List.length_map, List.length_range]

theorem gridDesc_mem (a d : ℚ) (j : ℕ) (q : ℚ) :
    q ∈ gridDesc a d j ↔ ∃ k : ℕ, k < j ∧ q = a + k * d := by
  simp only [gridDesc, List.mem_reverse, List.mem_map, List.mem_range]
  constructor
  · rintro ⟨k, hk, rfl⟩; exact ⟨k, hk, rfl⟩
  · rintro ⟨k, hk, rfl⟩; exact ⟨k, hk, rfl⟩

theorem gridDesc_nodup (a d : ℚ) (j : ℕ) (hd : 0 < d) :
    (gridDesc a d j).Nodup := by
  rw [gridDesc, List.nodup_reverse]
  refine (List.nodup_range j).map_on ?_
  intro k hk l hl hkl
  have h1 : (k : ℚ) * d = l * d := by linarith [hkl]
  have h2 : (k : ℚ) = l := mul_right_cancel₀ (ne_of_gt hd) h1
  exact_mod_cast h2

theorem gridDesc_sorted (a d : ℚ) (j : ℕ) (hd : 0 < d) :
    List.Sorted (fun x y : ℚ => y ≤ x) (gridDesc a d j) := by
  rw [List.Sorted, gridDesc, List.pairwise_reverse, List.pairwise_map]
  refine (List.pairwise_lt_range j).imp ?_
  intro k l hkl
  have h1 : (k : ℚ) ≤ l := by exact_mod_cast le_of_lt hkl
  nlinarith

theorem map_filter_key {α β : Type} (f : α → β) (p : β → Bool)
    (l : List α) :
    (l.filter (fun a => p (f a))).map f = (l.map f).filter p := by
  induction l with
  | nil => rfl
  | cons x xs ih =>
    simp only [List.filter_cons, List.map_cons]
    split <;> simp [ih]

theorem sorted_strikeDesc_map {l : List OptionInst}
    (h : List.Sorted strikeDesc l) :
    List.Sorted (fun x y : ℚ => y ≤ x) (l.map OptionInst.strike) := by
  rw [List.Sorted, List.pairwise_map]
  exact h

instance : IsAntisymm ℚ (fun x y : ℚ => y ≤ x) :=
  ⟨fun _ _ h₁ h₂ => le_antisymm h₂ h₁⟩

/-- **C3**: with a positive spread width, every BULL_PUT recommendation
returned by `select_strikes` with trend `"Bullish"` has
`short_strike ≤ wall_price` and `short_strike < spot` (the fallback
branch can never produce a result, since every put below the fallback
short would itself be a closer OTM put); whenever a recommendation is
returned there are at least `spread_width_strikes` put strikes below the
short strike at the resolved expiry (otherwise the selection returns
`none`); and on a uniform strike grid with spacing `d` the long strike
is exactly `short_strike - spread_width_strikes * d`. -/
theorem bull_put_strike_rule (wall spot : ℚ) (chain : List OptionInst)
    (today : PyDate) (te : Option PyDate) (wd : ℕ) (hw : 1 ≤ wd) :
    (∀ rec : SpreadRec,
      selectStrikes wall spot "Bullish" chain today te wd = some rec →
      rec.shortStrike ≤ wall ∧ rec.shortStrike < spot ∧
      wd ≤ (((filterByExpiry chain rec.expiry).filter
              (fun i => i.instType = OptType.PE)).filter
              (fun (i : OptionInst) => i.strike < rec.shortStrike)).length) ∧
    (∀ (a d : ℚ) (n : ℕ) (rec : SpreadRec), 0 < d →
      selectStrikes wall spot "Bullish" chain today te wd = some rec →
      (((filterByExpiry chain rec.expiry).filter
          (fun i => i.instType = OptType.PE)).map OptionInst.strike).Nodup →
      (∀ q : ℚ, (q ∈ ((filterByExpiry chain rec.expiry).filter
          (fun i => i.instType = OptType.PE)).map OptionInst.strike) ↔
        ∃ k : ℕ, k < n ∧ q = a + k * d) →
      rec.longStrike = rec.shortStrike - wd * d) := by
  constructor
  · intro rec h
    obtain ⟨e, he, hne, hcase⟩ := selectStrikes_inv _ _ _ _ _ _ _ _ h
    rcases hcase with ⟨-, hbp⟩ | ⟨hnb, -, -⟩
    swap
    · exact absurd rfl hnb
    obtain ⟨si, li, hsi, hlen, hidx, hrec⟩ :=
      selectBullPut_inv _ _ _ _ _ _ hbp
    obtain ⟨hsimem, hsis, hshort⟩ := bullShort_spec _ _ _ _ hsi
    have hsiw : si.strike ≤ wall := by
      rcases hshort with h1 | ⟨hnone, hmin⟩
      · exact h1
      · exfalso
        have hwlt : wall < si.strike := by
          by_contra hcon
          push_neg at hcon
          exact hnone si hsimem ⟨hcon, hsis⟩
        have hfil : (bullPuts (filterByExpiry chain e)).filter
            (fun i => i.strike < si.strike) = [] := by
          rw [List.filter_eq_nil]
          intro j hj
          simp only [decide_eq_true_eq]
          intro hjlt
          by_cases hjs : j.strike < spot
          · have hjw : wall < j.strike := by
              by_contra hcon
              push_neg at hcon
              exact hnone j hj ⟨hcon, hjs⟩
            have hk := hmin j hj hjs
            rw [abs_of_pos (by linarith), abs_of_pos (by linarith)] at hk
            linarith
          · push_neg at hjs
            linarith
        have hzero : (bullLower (filterByExpiry chain e) si).length = 0 := by
          rw [bullLower, hfil]
          rfl
        omega
    have e1 : (bullLower (filterByExpiry chain e) si).length =
        ((bullPuts (filterByExpiry chain e)).filter
          (fun i => i.strike < si.strike)).length :=
      (List.perm_insertionSort _ _).length_eq
    have e2 : ((bullPuts (filterByExpiry chain e)).filter
          (fun i => i.strike < si.strike)).length =
        (((filterByExpiry chain e).filter
          (fun i => i.instType = OptType.PE)).filter
          (fun (i : OptionInst) => i.strike < si.strike)).length :=
      ((List.perm_insertionSort strikeDesc _).filter _).length_eq
    rw [hrec]
    dsimp only
    exact ⟨hsiw, hsis, by omega⟩
  · intro a d n rec hd h hnodup hgrid
    obtain ⟨e, he, hne, hcase⟩ := selectStrikes_inv _ _ _ _ _ _ _ _ h
    rcases hcase with ⟨-, hbp⟩ | ⟨hnb, -, -⟩
    swap
    · exact absurd rfl hnb
    obtain ⟨si, li, hsi, hlen, hidx, hrec⟩ :=
      selectBullPut_inv _ _ _ _ _ _ hbp
    obtain ⟨hsimem, hsis, -⟩ := bullShort_spec _ _ _ _ hsi
    rw [hrec] at hnodup hgrid ⊢
    dsimp only at hnodup hgrid ⊢
    have hperm : List.Perm (bullPuts (filterByExpiry chain e))
        ((filterByExpiry chain e).filter
          (fun i => i.instType = OptType.PE)) :=
      List.perm_insertionSort _ _
    have hPS : List.Perm
        ((bullPuts (filterByExpiry chain e)).map OptionInst.strike)
        (((filterByExpiry chain e).filter
          (fun i => i.instType = OptType.PE)).map OptionInst.strike) :=
      hperm.map _
    have hPnodup :
        ((bullPuts (filterByExpiry chain e)).map OptionInst.strike).Nodup :=
      hPS.nodup_iff.mpr hnodup
    have hPgrid : ∀ q : ℚ,
        q ∈ (bullPuts (filterByExpiry chain e)).map OptionInst.strike ↔
        ∃ k : ℕ, k < n ∧ q = a + k * d :=
      fun q => (hPS.mem_iff).trans (hgrid q)
    have hsimem2 : si.strike ∈
        (bullPuts (filterByExpiry chain e)).map OptionInst.strike :=
      List.mem_map_of_mem _ hsimem
    obtain ⟨j, hjn, hsj⟩ := (hPgrid _).mp hsimem2
    have hLperm : List.Perm (bullLower (filterByExpiry chain e) si)
        ((bullPuts (filterByExpiry chain e)).filter
          (fun i => i.strike < si.strike)) :=
      List.perm_insertionSort _ _
    have hLSperm : List.Perm
        ((bullLower (filterByExpiry chain e) si).map OptionInst.strike)
        (((bullPuts (filterByExpiry chain e)).filter
          (fun i => i.strike < si.strike)).map OptionInst.strike) :=
      hLperm.map _
    have hmapfil : ((bullPuts (filterByExpiry chain e)).filter
          (fun i => i.strike < si.strike)).map OptionInst.strike =
        ((bullPuts (filterByExpiry chain e)).map OptionInst.strike).filter
          (fun q => q < si.strike) :=
      map_filter_key OptionInst.strike (fun q => q < si.strike) _
    have hLSnodup :
        ((bullLower (filterByExpiry chain e) si).map
          OptionInst.strike).Nodup := by
      refine hLSperm.nodup_iff.mpr ?_
      rw [hmapfil]
      exact hPnodup.filter _
    have hLSmem : ∀ q : ℚ,
        q ∈ (bullLower (filterByExpiry chain e) si).map OptionInst.strike ↔
        ∃ k : ℕ, k < j ∧ q = a + k * d := by
      intro q
      rw [hLSperm.mem_iff, hmapfil, List.mem_filter]
      constructor
      · rintro ⟨hqP, hqlt⟩
        simp only [decide_eq_true_eq] at hqlt
        obtain ⟨k, hkn, rfl⟩ := (hPgrid q).mp hqP
        refine ⟨k, ?_, rfl⟩
        rw [hsj] at hqlt
        have h1 : (k : ℚ) * d < j * d := by linarith
        have h2 : (k : ℚ) < j := (mul_lt_mul_right hd).mp h1
        exact_mod_cast h2
      · rintro ⟨k, hkj, rfl⟩
        have hkd : (k : ℚ) < j := by exact_mod_cast hkj
        refine ⟨(hPgrid _).mpr ⟨k, lt_trans hkj hjn, rfl⟩, ?_⟩
        simp only [decide_eq_true_eq]
        rw [hsj]
        nlinarith
    have hperm2 : List.Perm
        ((bullLower (filterByExpiry chain e) si).map OptionInst.strike)
        (gridDesc a d j) :=
      (List.perm_ext_iff_of_nodup hLSnodup (gridDesc_nodup a d j hd)).mpr
        (fun q => (hLSmem q).trans (gridDesc_mem a d j q).symm)
    have hsortedL : List.Sorted strikeDesc
        (bullLower (filterByExpiry chain e) si) :=
      List.sorted_insertionSort strikeDesc _
    have hEq : (bullLower (filterByExpiry chain e) si).map
        OptionInst.strike = gridDesc a d j :=
      List.eq_of_perm_of_sorted hperm2 (sorted_strikeDesc_map hsortedL)
        (gridDesc_sorted a d j hd)
    have hlenLS : ((bullLower (filterByExpiry chain e) si).map
        OptionInst.strike).length = j := by
      rw [hEq]; exact gridDesc_length a d j
    have hlenL : (bullLower (filterByExpiry chain e) si).length = j := by
      rw [← hlenLS, List.length_map]
    have hwd0 : ¬ wd = 0 := by omega
    rw [if_neg hwd0] at hidx
    have hq : ((bullLower (filterByExpiry chain e) si).map
        OptionInst.strike).get? (wd - 1) = some li.strike := by
      rw [List.get?_map, hidx]
      rfl
    rw [hEq, gridDesc_get? a d j (wd - 1) (by omega)] at hq
    have hqv : a + (↑(j - 1 - (wd - 1)) : ℚ) * d = li.strike :=
      Option.some.inj hq
    have hidxeq : j - 1 - (wd - 1) = j - wd := by omega
    rw [hidxeq] at hqv
    rw [← hqv, hsj]
    have hwj : wd ≤ j := by omega
    have hcast : ((j - wd : ℕ) : ℚ) = (j : ℚ) - wd := Nat.cast_sub hwj
    rw [hcast]
    ring

theorem bull_put_strike_rule_witness :
    (recW.shortStrike ≤ 100 ∧ recW.shortStrike < 110 ∧
      1 ≤ (((filterByExpiry [instP100, instP95] recW.expiry).filter
            (fun i => i.instType = OptType.PE)).filter
            (fun (i : OptionInst) => i.strike < recW.shortStrike)).length) ∧
    recW.longStrike = recW.shortStrike - ((1 : ℕ) : ℚ) * 5 := by
  have H := bull_put_strike_rule 100 110 [instP100, instP95] dayW
    (some expW) 1 le_rfl
  refine ⟨H.1 recW selectStrikesW_eval, ?_⟩
  refine H.2 95 5 2 recW (by norm_num) selectStrikesW_eval ?_ ?_
  · norm_num [filterByExpiry, List.filter, instP100, instP95, recW, expW]
  · intro q
    norm_num [filterByExpiry, List.filter, instP100, instP95, recW, expW]
    constructor
    · rintro (rfl | rfl)
      · exact ⟨1, by norm_num, by norm_num⟩
      · exact ⟨0, by norm_num, by norm_num⟩
    · rintro ⟨k, hk, rfl⟩
      interval_cases k <;> norm_num
